import Mathlib

/-!
Verification development for the ChessXChess turn-queue engine
(src/src/lib/gameStore.ts) and the player anonymization layer
(src/src/app/api/game/route.ts, src/src/lib/validation.ts).

The chess rule engine (the chess.js npm package) is an external
collaborator of the repository; it is modelled abstractly through the
ChessEngine structure, at exactly the interface the store consumes:
FEN loading, the side to move of a loaded FEN, and move application
returning the new FEN plus the history of the loaded game.

Machine integers of the source (timestamps, versions) are modelled as
Nat; JavaScript numbers never overflow in the ranges used here.
-/

namespace ChessXChess

/-- Player record, gameStore.ts lines 176-180. -/
structure Player where
  id : String
  name : String
  joinedAt : Nat
deriving DecidableEq

/-- Turn status, gameStore.ts line 183. -/
inductive TurnStatus where
  | pending_confirmation
  | confirmed
deriving DecidableEq

/-- TurnState record, gameStore.ts lines 182-185. -/
structure TurnState where
  status : TurnStatus
  deadline : Nat
deriving DecidableEq

/-- CONFIRMATION_TIMEOUT_MS, gameStore.ts line 188. -/
def CONFIRMATION_TIMEOUT_MS : Nat := 10000

/-- MOVE_TIMEOUT_MS, gameStore.ts line 189. -/
def MOVE_TIMEOUT_MS : Nat := 30000

/-- A stored last move, gameStore.ts line 217. -/
structure LastMove where
  fromSq : String
  toSq : String
deriving DecidableEq

/-- The game component of ConsolidatedState, gameStore.ts lines 215-219. -/
structure GamePart where
  fen : String
  lastMove : Option LastMove
  moveHistory : List String
deriving DecidableEq

/-- The queues component, gameStore.ts lines 220-223. -/
structure QueuesPart where
  white : List Player
  black : List Player
deriving DecidableEq

/-- The current-seat component, gameStore.ts lines 224-227. -/
structure CurrentPart where
  white : Option Player
  black : Option Player
deriving DecidableEq

/-- The turns component, gameStore.ts lines 228-231. -/
structure TurnsPart where
  white : Option TurnState
  black : Option TurnState
deriving DecidableEq

/-- ConsolidatedState, gameStore.ts lines 214-233. -/
structure ConsolidatedState where
  game : GamePart
  queues : QueuesPart
  current : CurrentPart
  turns : TurnsPart
  version : Nat
deriving DecidableEq

/-- The two chess colors, the literal type of the color arguments in the source. -/
inductive Color where
  | w
  | b
deriving DecidableEq

/-- The string form of a color, used where the source compares a color with
    the strings produced by getTurnFromFen. -/
def Color.str : Color → String
  | .w => "w"
  | .b => "b"

/-- The standard starting FEN, produced by new Chess().fen() in the source. -/
def START_FEN : String := "rnbqkbnr/pppppppp/8/8/8/8/PPPPPPPP/RNBQKBNR w KQkq - 0 1"

/-- createDefaultState, gameStore.ts lines 235-256. -/
def createDefaultState : ConsolidatedState :=
  { game := { fen := START_FEN, lastMove := none, moveHistory := [] }
    queues := { white := [], black := [] }
    current := { white := none, black := none }
    turns := { white := none, black := none }
    version := 0 }

/-- Splitting a character list at every space, with the semantics of the
    JavaScript expression str.split applied with a single-space separator:
    consecutive, leading and trailing separators yield empty fields, and
    the empty string yields one empty field. -/
def splitFields : List Char → List (List Char)
  | [] => [[]]
  | c :: rest =>
    match splitFields rest with
    | [] => [[c]]
    | f :: fs => if c = ' ' then [] :: f :: fs else (c :: f) :: fs

/-- getTurnFromFen, gameStore.ts lines 258-261: the second space-separated
    field of the FEN string, with the empty or missing field defaulting
    to the string w exactly as the JavaScript expression parts[1] does
    under the falsiness of the empty string. -/
def getTurnFromFen (fen : String) : String :=
  let parts := (splitFields fen.data).map String.mk
  let t := parts.getD 1 ""
  if t = "" then "w" else t

/-- The ternary color selection the source writes as
    currentTurn === the string w: every turn value other than w,
    including a malformed one, selects the black branch. -/
def ternaryColor (fen : String) : Color :=
  if getTurnFromFen fen = "w" then .w else .b

/- Color-indexed access to the per-color fields.  The source duplicates
   every per-color block once for white and once for black behind a
   color test; these helpers express that duplication once. -/

/-- The queue of a color. -/
def ConsolidatedState.queueOf (s : ConsolidatedState) : Color → List Player
  | .w => s.queues.white
  | .b => s.queues.black

/-- The seated player of a color. -/
def ConsolidatedState.currentOf (s : ConsolidatedState) : Color → Option Player
  | .w => s.current.white
  | .b => s.current.black

/-- The turn state of a color. -/
def ConsolidatedState.turnsOf (s : ConsolidatedState) : Color → Option TurnState
  | .w => s.turns.white
  | .b => s.turns.black

/-- Replace the queue of a color. -/
def ConsolidatedState.setQueue (s : ConsolidatedState) (c : Color) (q : List Player) :
    ConsolidatedState :=
  match c with
  | .w => { s with queues := { s.queues with white := q } }
  | .b => { s with queues := { s.queues with black := q } }

/-- Replace the seated player of a color. -/
def ConsolidatedState.setCurrent (s : ConsolidatedState) (c : Color) (p : Option Player) :
    ConsolidatedState :=
  match c with
  | .w => { s with current := { s.current with white := p } }
  | .b => { s with current := { s.current with black := p } }

/-- Replace the turn state of a color. -/
def ConsolidatedState.setTurns (s : ConsolidatedState) (c : Color) (t : Option TurnState) :
    ConsolidatedState :=
  match c with
  | .w => { s with turns := { s.turns with white := t } }
  | .b => { s with turns := { s.turns with black := t } }

/-- Clearing a seat: current and turn state of the color both become null,
    the pattern the source writes inline before calling assignNextPlayer. -/
def ConsolidatedState.clearSeat (s : ConsolidatedState) (c : Color) : ConsolidatedState :=
  (s.setCurrent c none).setTurns c none

/-- assignNextPlayer, gameStore.ts lines 298-339.  Pops the head of the
    queue into the seat; a turn state is created only when it is currently
    this color to move, with deadline now + CONFIRMATION_TIMEOUT_MS.
    The source duplicates the block per color; here the color test of
    the source is the color index. -/
def assignNextPlayer (s : ConsolidatedState) (color : Color) (now : Nat) : ConsolidatedState :=
  let currentTurn := getTurnFromFen s.game.fen
  match s.queueOf color with
  | nextPlayer :: rest =>
    ((s.setQueue color rest).setCurrent color (some nextPlayer)).setTurns color
      (if currentTurn = color.str then
        some { status := .pending_confirmation, deadline := now + CONFIRMATION_TIMEOUT_MS }
      else none)
  | [] => (s.setCurrent color none).setTurns color none

/-- initializeTurnStateIfNeeded, gameStore.ts lines 343-363.  The source
    branches on currentTurn === the string w, treating every other value
    as the black branch; the color below reproduces that exactly. -/
def initTurnStateIfNeeded (s : ConsolidatedState) (now : Nat) : ConsolidatedState :=
  let c : Color := ternaryColor s.game.fen
  match s.currentOf c, s.turnsOf c with
  | some _, none =>
    s.setTurns c
      (some { status := .pending_confirmation, deadline := now + CONFIRMATION_TIMEOUT_MS })
  | _, _ => s

/-- The shared per-color body of checkAndExpireTurnsInline,
    gameStore.ts lines 373-409 (white block) and 391-408 (black block). -/
def expireColor (s : ConsolidatedState) (c : Color) (now : Nat) : Bool × ConsolidatedState :=
  match s.turnsOf c with
  | some ts =>
    if now > ts.deadline then
      (true, assignNextPlayer (s.clearSeat c) c now)
    else
      (false, s)
  | none =>
    (true, s.setTurns c
      (some { status := .pending_confirmation, deadline := now + CONFIRMATION_TIMEOUT_MS }))

/-- checkAndExpireTurnsInline, gameStore.ts lines 367-412.  Only the color
    whose move it is according to the FEN is examined, and only when a
    player occupies that seat. -/
def checkAndExpireTurnsInline (s : ConsolidatedState) (now : Nat) : Bool × ConsolidatedState :=
  let turn := getTurnFromFen s.game.fen
  if turn = "w" ∧ s.current.white ≠ none then
    expireColor s .w now
  else if turn = "b" ∧ s.current.black ≠ none then
    expireColor s .b now
  else
    (false, s)

/-- A move request as passed to makeMove: from-square, to-square and
    optional promotion piece. -/
structure MoveReq where
  fromSq : String
  toSq : String
  promotion : Option String
deriving DecidableEq

/-- The interface of the external chess.js rule engine as consumed by
    gameStore.ts: whether chess.load(fen) succeeds, and the outcome of
    chess.move on a loaded FEN, returning the new chess.fen() and the
    new chess.history() on success and nothing when the move is rejected
    or throws. -/
structure ChessEngine where
  loadOk : String → Bool
  move : String → MoveReq → Option (String × List String)

/-- Facts about chess.js used by the invariant proofs: a loadable FEN has
    side to move w or b, and a successful move flips the side to move of
    the resulting FEN.  Both are elementary properties of chess. -/
structure EngineOk (eng : ChessEngine) : Prop where
  load_turn : ∀ fen, eng.loadOk fen = true →
    getTurnFromFen fen = "w" ∨ getTurnFromFen fen = "b"
  move_flips : ∀ fen mv fen' hist, eng.loadOk fen = true →
    eng.move fen mv = some (fen', hist) →
    (getTurnFromFen fen = "w" → getTurnFromFen fen' = "b") ∧
    (getTurnFromFen fen = "b" → getTurnFromFen fen' = "w")

/-- joinQueue transition, gameStore.ts lines 711-734 (the modifier passed
    to updateState) and identically lines 436-452. -/
def joinQueueCore (s : ConsolidatedState) (player : Player) (color : Color) (now : Nat) :
    Except String ConsolidatedState :=
  if (s.queueOf color).any (fun p => p.id = player.id) then
    .error "Already in queue"
  else
    match s.currentOf color with
    | some cp =>
      if cp.id = player.id then .error "Already playing"
      else .ok (s.setQueue color (s.queueOf color ++ [player]))
    | none =>
      .ok (assignNextPlayer (s.setQueue color (s.queueOf color ++ [player])) color now)

/-- The per-color block of leaveQueue, gameStore.ts lines 741-750: if the
    seat of the color is occupied by the id, clear the seat and its turn
    state and reassign from the queue. -/
def seatEvictIf (s : ConsolidatedState) (c : Color) (playerId : String) (now : Nat) :
    ConsolidatedState :=
  match s.currentOf c with
  | some cp =>
    if cp.id = playerId then assignNextPlayer (s.clearSeat c) c now else s
  | none => s

/-- leaveQueue transition, gameStore.ts lines 736-754 and 454-472:
    filter the id out of both queues, then clear and reassign each seat
    the id occupied. -/
def leaveQueueCore (s : ConsolidatedState) (playerId : String) (now : Nat) :
    ConsolidatedState :=
  let s1 := s.setQueue .w ((s.queueOf .w).filter (fun p => p.id ≠ playerId))
  let s2 := s1.setQueue .b ((s1.queueOf .b).filter (fun p => p.id ≠ playerId))
  seatEvictIf (seatEvictIf s2 .w playerId now) .b playerId now

/-- confirmReady transition, gameStore.ts lines 756-789 and 474-505.
    The source selects seat and turn state with the ternary
    turn === the string w, so every non-w turn value selects black. -/
def confirmReadyCore (s : ConsolidatedState) (playerId : String) (now : Nat) :
    Except String ConsolidatedState :=
  let c : Color := ternaryColor s.game.fen
  match s.currentOf c with
  | none => .error "Not your turn"
  | some cp =>
    if cp.id ≠ playerId then .error "Not your turn"
    else
      match s.turnsOf c with
      | none => .error "No confirmation needed"
      | some ts =>
        if ts.status ≠ .pending_confirmation then .error "No confirmation needed"
        else if now > ts.deadline then .error "Confirmation timeout"
        else .ok (s.setTurns c (some { status := .confirmed, deadline := now + MOVE_TIMEOUT_MS }))

/-- makeMove transition, gameStore.ts lines 791-851 and 507-564.
    chess.turn() of a successfully loaded FEN is its active-color field,
    that is getTurnFromFen.  On success the game component is replaced by
    the engine output, the mover is pushed to the back of its own queue,
    the seat is cleared and reassigned, and the turn state of the side now
    to move is initialized if a player is already seated there. -/
def makeMoveCore (eng : ChessEngine) (s : ConsolidatedState) (playerId : String)
    (mv : MoveReq) (now : Nat) : Except String ConsolidatedState :=
  if eng.loadOk s.game.fen = false then .error "Invalid game state"
  else
    let c : Color := ternaryColor s.game.fen
    match s.currentOf c with
    | none => .error "Not your turn"
    | some cp =>
      if cp.id ≠ playerId then .error "Not your turn"
      else
        match s.turnsOf c with
        | none => .error "Please confirm you are ready first"
        | some ts =>
          if ts.status ≠ .confirmed then .error "Please confirm you are ready first"
          else if now > ts.deadline then .error "Move timeout - you took too long"
          else
            match eng.move s.game.fen mv with
            | none => .error "Invalid move"
            | some (newFen, newHistory) =>
              let s1 := { s with game :=
                { fen := newFen, lastMove := some { fromSq := mv.fromSq, toSq := mv.toSq },
                  moveHistory := newHistory } }
              let s2 := s1.setQueue c (s1.queueOf c ++ [cp])
              let s3 := assignNextPlayer (s2.clearSeat c) c now
              .ok (initTurnStateIfNeeded s3 now)

/-- resetGame transition, gameStore.ts lines 853-862 (the modifier) and
    566-574: only the game component is replaced. -/
def resetGameCore (s : ConsolidatedState) : ConsolidatedState :=
  { s with game := { fen := START_FEN, lastMove := none, moveHistory := [] } }

/-- The per-color seat block of kickPlayerByName, gameStore.ts lines
    887-899: if the seat of the color is occupied by a player with the
    name, clear the seat and its turn state and reassign; the Bool says
    whether the block fired. -/
def seatKickIf (s : ConsolidatedState) (c : Color) (playerName : String) (now : Nat) :
    Bool × ConsolidatedState :=
  match s.currentOf c with
  | some cp =>
    if cp.name = playerName then (true, assignNextPlayer (s.clearSeat c) c now)
    else (false, s)
  | none => (false, s)

/-- kickPlayerByName transition, gameStore.ts lines 875-905 and 580-608:
    filter the display name out of both queues, then clear and reassign
    each seat whose occupant has that name; the Bool is the found flag. -/
def kickPlayerByNameCore (s : ConsolidatedState) (playerName : String) (now : Nat) :
    Bool × ConsolidatedState :=
  let w0 := s.queueOf .w
  let s1 := s.setQueue .w (w0.filter (fun p => p.name ≠ playerName))
  let f1 := decide ((s1.queueOf .w).length ≠ w0.length)
  let b0 := s1.queueOf .b
  let s2 := s1.setQueue .b (b0.filter (fun p => p.name ≠ playerName))
  let f2 := f1 || decide ((s2.queueOf .b).length ≠ b0.length)
  let r3 := seatKickIf s2 .w playerName now
  let r4 := seatKickIf r3.2 .b playerName now
  (f2 || r3.1 || r4.1, r4.2)

/-- The InMemoryStore.resetGame method, gameStore.ts lines 566-574:
    unlike every other operation it performs no lazy expiry; it replaces
    the game component and increments the version. -/
def resetGameInMemory (s : ConsolidatedState) : ConsolidatedState :=
  { resetGameCore s with version := s.version + 1 }

/-- The operations of the store, as named by the claims. -/
inductive Op where
  | join (player : Player) (color : Color)
  | leave (playerId : String)
  | confirm (playerId : String)
  | move (playerId : String) (mv : MoveReq)
  | expire
  | reset
  | clearAll
  | kick (playerName : String)
deriving DecidableEq

/-- The single-process effect of RedisStore.updateState around one
    transition, gameStore.ts lines 642-694, in the absence of version
    conflicts: lazy expiry of the read state, then the transition; a
    business failure leaves the stored record untouched, a success is
    written with version incremented by one. -/
def runUpdate (s : ConsolidatedState) (now : Nat)
    (modifier : ConsolidatedState → Except String ConsolidatedState) : ConsolidatedState :=
  let s0 := (checkAndExpireTurnsInline s now).2
  match modifier s0 with
  | .ok s' => { s' with version := s'.version + 1 }
  | .error _ => s

/-- The persisted effect of one operation.  The expire operation is the
    lazy expiry performed by RedisStore.getStateWithExpiration, lines
    614-639, which writes back with version incremented when the check
    changed the state.  clearAll overwrites the record with the default
    state, lines 864-873.  All remaining operations run through
    updateState as in runUpdate. -/
def applyOp (eng : ChessEngine) (op : Op) (now : Nat) (s : ConsolidatedState) :
    ConsolidatedState :=
  match op with
  | .expire =>
    let r := checkAndExpireTurnsInline s now
    if r.1 then { r.2 with version := r.2.version + 1 } else s
  | .clearAll => createDefaultState
  | .join p c => runUpdate s now (fun st => joinQueueCore st p c now)
  | .leave pid => runUpdate s now (fun st => .ok (leaveQueueCore st pid now))
  | .confirm pid => runUpdate s now (fun st => confirmReadyCore st pid now)
  | .move pid mv => runUpdate s now (fun st => makeMoveCore eng st pid mv now)
  | .reset => runUpdate s now (fun st => .ok (resetGameCore st))
  | .kick name => runUpdate s now (fun st => .ok (kickPlayerByNameCore st name now).2)

/-- Run a sequence of operations, each with its own wall-clock time. -/
def applyTrace (eng : ChessEngine) (tr : List (Op × Nat)) (s : ConsolidatedState) :
    ConsolidatedState :=
  tr.foldl (fun st p => applyOp eng p.1 p.2 st) s

/-- Reachability from the default initial state. -/
def Reachable (eng : ChessEngine) (s : ConsolidatedState) : Prop :=
  ∃ tr : List (Op × Nat), s = applyTrace eng tr createDefaultState

/- ------------------------------------------------------------------ -/
/- Basic lemmas about the color-indexed getters and setters.          -/
/- ------------------------------------------------------------------ -/

@[simp]
theorem queueOf_setQueue (s : ConsolidatedState) (c c' : Color) (q : List Player) :
    (s.setQueue c q).queueOf c' = if c' = c then q else s.queueOf c' := by
  cases c <;> cases c' <;>
    simp [ConsolidatedState.setQueue, ConsolidatedState.queueOf]

@[simp]
theorem currentOf_setQueue (s : ConsolidatedState) (c c' : Color) (q : List Player) :
    (s.setQueue c q).currentOf c' = s.currentOf c' := by
  cases c <;> cases c' <;>
    simp [ConsolidatedState.setQueue, ConsolidatedState.currentOf]

@[simp]
theorem turnsOf_setQueue (s : ConsolidatedState) (c c' : Color) (q : List Player) :
    (s.setQueue c q).turnsOf c' = s.turnsOf c' := by
  cases c <;> cases c' <;>
    simp [ConsolidatedState.setQueue, ConsolidatedState.turnsOf]

@[simp]
theorem game_setQueue (s : ConsolidatedState) (c : Color) (q : List Player) :
    (s.setQueue c q).game = s.game := by
  cases c <;> simp [ConsolidatedState.setQueue]

@[simp]
theorem version_setQueue (s : ConsolidatedState) (c : Color) (q : List Player) :
    (s.setQueue c q).version = s.version := by
  cases c <;> simp [ConsolidatedState.setQueue]

@[simp]
theorem currentOf_setCurrent (s : ConsolidatedState) (c c' : Color) (p : Option Player) :
    (s.setCurrent c p).currentOf c' = if c' = c then p else s.currentOf c' := by
  cases c <;> cases c' <;>
    simp [ConsolidatedState.setCurrent, ConsolidatedState.currentOf]

@[simp]
theorem queueOf_setCurrent (s : ConsolidatedState) (c c' : Color) (p : Option Player) :
    (s.setCurrent c p).queueOf c' = s.queueOf c' := by
  cases c <;> cases c' <;>
    simp [ConsolidatedState.setCurrent, ConsolidatedState.queueOf]

@[simp]
theorem turnsOf_setCurrent (s : ConsolidatedState) (c c' : Color) (p : Option Player) :
    (s.setCurrent c p).turnsOf c' = s.turnsOf c' := by
  cases c <;> cases c' <;>
    simp [ConsolidatedState.setCurrent, ConsolidatedState.turnsOf]

@[simp]
theorem game_setCurrent (s : ConsolidatedState) (c : Color) (p : Option Player) :
    (s.setCurrent c p).game = s.game := by
  cases c <;> simp [ConsolidatedState.setCurrent]

@[simp]
theorem version_setCurrent (s : ConsolidatedState) (c : Color) (p : Option Player) :
    (s.setCurrent c p).version = s.version := by
  cases c <;> simp [ConsolidatedState.setCurrent]

@[simp]
theorem turnsOf_setTurns (s : ConsolidatedState) (c c' : Color) (t : Option TurnState) :
    (s.setTurns c t).turnsOf c' = if c' = c then t else s.turnsOf c' := by
  cases c <;> cases c' <;>
    simp [ConsolidatedState.setTurns, ConsolidatedState.turnsOf]

@[simp]
theorem queueOf_setTurns (s : ConsolidatedState) (c c' : Color) (t : Option TurnState) :
    (s.setTurns c t).queueOf c' = s.queueOf c' := by
  cases c <;> cases c' <;>
    simp [ConsolidatedState.setTurns, ConsolidatedState.queueOf]

@[simp]
theorem currentOf_setTurns (s : ConsolidatedState) (c c' : Color) (t : Option TurnState) :
    (s.setTurns c t).currentOf c' = s.currentOf c' := by
  cases c <;> cases c' <;>
    simp [ConsolidatedState.setTurns, ConsolidatedState.currentOf]

@[simp]
theorem game_setTurns (s : ConsolidatedState) (c : Color) (t : Option TurnState) :
    (s.setTurns c t).game = s.game := by
  cases c <;> simp [ConsolidatedState.setTurns]

@[simp]
theorem version_setTurns (s : ConsolidatedState) (c : Color) (t : Option TurnState) :
    (s.setTurns c t).version = s.version := by
  cases c <;> simp [ConsolidatedState.setTurns]

@[simp]
theorem queueOf_withGame (s : ConsolidatedState) (g : GamePart) (c : Color) :
    (ConsolidatedState.queueOf { s with game := g } c) = s.queueOf c := by
  cases c <;> rfl

@[simp]
theorem currentOf_withGame (s : ConsolidatedState) (g : GamePart) (c : Color) :
    (ConsolidatedState.currentOf { s with game := g } c) = s.currentOf c := by
  cases c <;> rfl

@[simp]
theorem turnsOf_withGame (s : ConsolidatedState) (g : GamePart) (c : Color) :
    (ConsolidatedState.turnsOf { s with game := g } c) = s.turnsOf c := by
  cases c <;> rfl

@[simp]
theorem queueOf_withVersion (s : ConsolidatedState) (v : Nat) (c : Color) :
    (ConsolidatedState.queueOf { s with version := v } c) = s.queueOf c := by
  cases c <;> rfl

@[simp]
theorem currentOf_withVersion (s : ConsolidatedState) (v : Nat) (c : Color) :
    (ConsolidatedState.currentOf { s with version := v } c) = s.currentOf c := by
  cases c <;> rfl

@[simp]
theorem turnsOf_withVersion (s : ConsolidatedState) (v : Nat) (c : Color) :
    (ConsolidatedState.turnsOf { s with version := v } c) = s.turnsOf c := by
  cases c <;> rfl

@[simp]
theorem currentOf_w (s : ConsolidatedState) : s.currentOf .w = s.current.white := rfl

@[simp]
theorem currentOf_b (s : ConsolidatedState) : s.currentOf .b = s.current.black := rfl

theorem str_w : Color.w.str = "w" := rfl

theorem str_b : Color.b.str = "b" := rfl

theorem Color.str_ne (c c' : Color) (h : c ≠ c') : c.str ≠ c'.str := by
  cases c <;> cases c' <;> simp_all [Color.str]

@[simp]
theorem queueOf_clearSeat (s : ConsolidatedState) (c c' : Color) :
    (s.clearSeat c).queueOf c' = s.queueOf c' := by
  simp [ConsolidatedState.clearSeat]

@[simp]
theorem currentOf_clearSeat (s : ConsolidatedState) (c c' : Color) :
    (s.clearSeat c).currentOf c' = if c' = c then none else s.currentOf c' := by
  simp [ConsolidatedState.clearSeat]

@[simp]
theorem turnsOf_clearSeat (s : ConsolidatedState) (c c' : Color) :
    (s.clearSeat c).turnsOf c' = if c' = c then none else s.turnsOf c' := by
  simp [ConsolidatedState.clearSeat]

@[simp]
theorem game_clearSeat (s : ConsolidatedState) (c : Color) :
    (s.clearSeat c).game = s.game := by
  simp [ConsolidatedState.clearSeat]

@[simp]
theorem version_clearSeat (s : ConsolidatedState) (c : Color) :
    (s.clearSeat c).version = s.version := by
  simp [ConsolidatedState.clearSeat]

@[simp]
theorem queueOf_setQueue_self (s : ConsolidatedState) (c : Color) (q : List Player) :
    (s.setQueue c q).queueOf c = q := by
  simp

@[simp]
theorem currentOf_setCurrent_self (s : ConsolidatedState) (c : Color) (p : Option Player) :
    (s.setCurrent c p).currentOf c = p := by
  simp

@[simp]
theorem turnsOf_setTurns_self (s : ConsolidatedState) (c : Color) (t : Option TurnState) :
    (s.setTurns c t).turnsOf c = t := by
  simp

@[simp]
theorem currentOf_clearSeat_self (s : ConsolidatedState) (c : Color) :
    (s.clearSeat c).currentOf c = none := by
  simp

@[simp]
theorem turnsOf_clearSeat_self (s : ConsolidatedState) (c : Color) :
    (s.clearSeat c).turnsOf c = none := by
  simp

/- ------------------------------------------------------------------ -/
/- Characterization of assignNextPlayer.                              -/
/- ------------------------------------------------------------------ -/

theorem assign_game (s : ConsolidatedState) (c : Color) (now : Nat) :
    (assignNextPlayer s c now).game = s.game := by
  unfold assignNextPlayer
  cases hq : s.queueOf c <;> simp

theorem assign_version (s : ConsolidatedState) (c : Color) (now : Nat) :
    (assignNextPlayer s c now).version = s.version := by
  unfold assignNextPlayer
  cases hq : s.queueOf c <;> simp

theorem assign_queueOf_self (s : ConsolidatedState) (c : Color) (now : Nat) :
    (assignNextPlayer s c now).queueOf c = (s.queueOf c).tail := by
  unfold assignNextPlayer
  cases hq : s.queueOf c <;> simp [hq]

theorem assign_currentOf_self (s : ConsolidatedState) (c : Color) (now : Nat) :
    (assignNextPlayer s c now).currentOf c = (s.queueOf c).head? := by
  unfold assignNextPlayer
  cases hq : s.queueOf c <;> simp [hq]

theorem assign_turnsOf_self (s : ConsolidatedState) (c : Color) (now : Nat) :
    (assignNextPlayer s c now).turnsOf c =
      match s.queueOf c with
      | [] => none
      | _ :: _ =>
        if getTurnFromFen s.game.fen = c.str then
          some { status := .pending_confirmation, deadline := now + CONFIRMATION_TIMEOUT_MS }
        else none := by
  unfold assignNextPlayer
  cases hq : s.queueOf c <;> simp [hq]

theorem assign_queueOf_other (s : ConsolidatedState) (c c' : Color) (now : Nat)
    (h : c' ≠ c) : (assignNextPlayer s c now).queueOf c' = s.queueOf c' := by
  unfold assignNextPlayer
  cases hq : s.queueOf c <;> simp [h]

theorem assign_currentOf_other (s : ConsolidatedState) (c c' : Color) (now : Nat)
    (h : c' ≠ c) : (assignNextPlayer s c now).currentOf c' = s.currentOf c' := by
  unfold assignNextPlayer
  cases hq : s.queueOf c <;> simp [h]

theorem assign_turnsOf_other (s : ConsolidatedState) (c c' : Color) (now : Nat)
    (h : c' ≠ c) : (assignNextPlayer s c now).turnsOf c' = s.turnsOf c' := by
  unfold assignNextPlayer
  cases hq : s.queueOf c <;> simp [h]

/- ------------------------------------------------------------------ -/
/- Characterization of initTurnStateIfNeeded.                         -/
/- ------------------------------------------------------------------ -/

theorem ternaryColor_of_str (fen : String) (c : Color)
    (h : getTurnFromFen fen = c.str) : ternaryColor fen = c := by
  cases c
  · simp [ternaryColor, h, Color.str]
  · unfold ternaryColor
    rw [h]
    decide

theorem init_eq (s : ConsolidatedState) (now : Nat) :
    initTurnStateIfNeeded s now =
      match s.currentOf (ternaryColor s.game.fen), s.turnsOf (ternaryColor s.game.fen) with
      | some _, none =>
        s.setTurns (ternaryColor s.game.fen)
          (some { status := .pending_confirmation, deadline := now + CONFIRMATION_TIMEOUT_MS })
      | _, _ => s := rfl

theorem init_game (s : ConsolidatedState) (now : Nat) :
    (initTurnStateIfNeeded s now).game = s.game := by
  rw [init_eq]
  split <;> simp

theorem init_version (s : ConsolidatedState) (now : Nat) :
    (initTurnStateIfNeeded s now).version = s.version := by
  rw [init_eq]
  split <;> simp

theorem init_queueOf (s : ConsolidatedState) (now : Nat) (c : Color) :
    (initTurnStateIfNeeded s now).queueOf c = s.queueOf c := by
  rw [init_eq]
  split <;> simp

theorem init_currentOf (s : ConsolidatedState) (now : Nat) (c : Color) :
    (initTurnStateIfNeeded s now).currentOf c = s.currentOf c := by
  rw [init_eq]
  split <;> simp

theorem init_of_seated (s : ConsolidatedState) (now : Nat) (c : Color) (p : Player)
    (h : getTurnFromFen s.game.fen = c.str) (h2 : s.currentOf c = some p)
    (h3 : s.turnsOf c = none) :
    initTurnStateIfNeeded s now =
      s.setTurns c
        (some { status := .pending_confirmation, deadline := now + CONFIRMATION_TIMEOUT_MS }) := by
  rw [init_eq, ternaryColor_of_str s.game.fen c h, h2, h3]

theorem init_of_turnstate (s : ConsolidatedState) (now : Nat) (c : Color) (ts : TurnState)
    (h : getTurnFromFen s.game.fen = c.str) (h2 : s.turnsOf c = some ts) :
    initTurnStateIfNeeded s now = s := by
  rw [init_eq, ternaryColor_of_str s.game.fen c h, h2]
  rcases s.currentOf c with _ | p <;> rfl

theorem init_of_vacant (s : ConsolidatedState) (now : Nat) (c : Color)
    (h : getTurnFromFen s.game.fen = c.str) (h2 : s.currentOf c = none) :
    initTurnStateIfNeeded s now = s := by
  rw [init_eq, ternaryColor_of_str s.game.fen c h, h2]

/- ------------------------------------------------------------------ -/
/- Characterization of the lazy expiry.                               -/
/- ------------------------------------------------------------------ -/

theorem expireColor_of_none (s : ConsolidatedState) (c : Color) (now : Nat)
    (h : s.turnsOf c = none) :
    expireColor s c now =
      (true, s.setTurns c
        (some { status := .pending_confirmation, deadline := now + CONFIRMATION_TIMEOUT_MS })) := by
  unfold expireColor
  rw [h]

theorem expireColor_of_live (s : ConsolidatedState) (c : Color) (now : Nat) (ts : TurnState)
    (h : s.turnsOf c = some ts) (hd : ¬ now > ts.deadline) :
    expireColor s c now = (false, s) := by
  unfold expireColor
  rw [h]
  simp [hd]

theorem expireColor_of_dead (s : ConsolidatedState) (c : Color) (now : Nat) (ts : TurnState)
    (h : s.turnsOf c = some ts) (hd : now > ts.deadline) :
    expireColor s c now = (true, assignNextPlayer (s.clearSeat c) c now) := by
  unfold expireColor
  rw [h]
  simp [hd]

theorem expire_eq_of_turn (s : ConsolidatedState) (now : Nat) (c : Color)
    (hc : getTurnFromFen s.game.fen = c.str) (hcur : s.currentOf c ≠ none) :
    checkAndExpireTurnsInline s now = expireColor s c now := by
  unfold checkAndExpireTurnsInline
  cases c
  · rw [if_pos ⟨hc, hcur⟩]
  · rw [if_neg, if_pos ⟨hc, hcur⟩]
    intro h
    rw [hc] at h
    exact absurd h.1 (by decide)

theorem expire_eq_of_vacant (s : ConsolidatedState) (now : Nat) (c : Color)
    (hc : getTurnFromFen s.game.fen = c.str) (hcur : s.currentOf c = none) :
    checkAndExpireTurnsInline s now = (false, s) := by
  unfold checkAndExpireTurnsInline
  cases c
  · rw [if_neg, if_neg]
    · intro h
      rw [hc] at h
      exact absurd h.1 (by decide)
    · intro h
      exact h.2 hcur
  · rw [if_neg, if_neg]
    · intro h
      exact h.2 hcur
    · intro h
      rw [hc] at h
      exact absurd h.1 (by decide)

theorem expire_eq_of_badturn (s : ConsolidatedState) (now : Nat)
    (h1 : getTurnFromFen s.game.fen ≠ "w") (h2 : getTurnFromFen s.game.fen ≠ "b") :
    checkAndExpireTurnsInline s now = (false, s) := by
  unfold checkAndExpireTurnsInline
  rw [if_neg (fun h => h1 h.1), if_neg (fun h => h2 h.1)]

/- ------------------------------------------------------------------ -/
/- A concrete rule-engine instance for witnesses and counterexamples: -/
/- it knows the single opening move e2e4 from the starting position.  -/
/- ------------------------------------------------------------------ -/

def FEN_AFTER_E4 : String := "rnbqkbnr/pppppppp/8/8/4P3/8/PPPP1PPP/RNBQKBNR b KQkq e3 0 1"

def e2e4 : MoveReq := { fromSq := "e2", toSq := "e4", promotion := none }

def tableEngine : ChessEngine :=
  { loadOk := fun fen => fen = START_FEN || fen = FEN_AFTER_E4
    move := fun fen mv =>
      if fen = START_FEN ∧ mv = e2e4 then some (FEN_AFTER_E4, ["e4"]) else none }

theorem tableEngine_ok : EngineOk tableEngine := by
  constructor
  · intro fen h
    simp only [tableEngine, Bool.or_eq_true, decide_eq_true_eq] at h
    rcases h with h | h <;> subst h
    · left; decide
    · right; decide
  · intro fen mv fen' hist hload hmv
    simp only [tableEngine] at hmv
    split at hmv
    · rename_i hcond
      cases hmv
      obtain ⟨hf, -⟩ := hcond
      subst hf
      exact ⟨fun _ => by decide, fun h => absurd h (by decide)⟩
    · exact absurd hmv (by simp)

def playerA : Player := { id := "player_1_aaaaaaaa", name := "Alice", joinedAt := 0 }

def playerB : Player := { id := "player_1_bbbbbbbb", name := "Bob", joinedAt := 0 }

def playerC : Player := { id := "player_1_cccccccc", name := "Cara", joinedAt := 0 }

/- ------------------------------------------------------------------ -/
/- Per-color id uniqueness: invariant machinery for claim C1.         -/
/- ------------------------------------------------------------------ -/

/-- Uniqueness of ids within one color: the queue carries no duplicate
    id and the seated player does not also occur in the queue. -/
def ColorUnique (s : ConsolidatedState) (c : Color) : Prop :=
  ((s.queueOf c).map Player.id).Nodup ∧
    ∀ p, s.currentOf c = some p → ∀ q ∈ s.queueOf c, q.id ≠ p.id

/-- Per-color uniqueness for both colors. -/
def PerColorUnique (s : ConsolidatedState) : Prop := ∀ c, ColorUnique s c

theorem colorUnique_congr {s s' : ConsolidatedState} {c : Color}
    (hq : s'.queueOf c = s.queueOf c) (hc : s'.currentOf c = s.currentOf c)
    (h : ColorUnique s c) : ColorUnique s' c := by
  refine ⟨hq ▸ h.1, ?_⟩
  intro p hp q hqq
  rw [hc] at hp
  rw [hq] at hqq
  exact h.2 p hp q hqq

theorem colorUnique_assign {s : ConsolidatedState} {c : Color} (now : Nat)
    (h : ColorUnique s c) : ColorUnique (assignNextPlayer s c now) c := by
  obtain ⟨h1, h2⟩ := h
  constructor
  · rw [assign_queueOf_self]
    cases hq : s.queueOf c with
    | nil => simp
    | cons hd tl =>
      rw [hq] at h1
      simp only [List.tail_cons]
      simp only [List.map_cons, List.nodup_cons] at h1
      exact h1.2
  · intro p hp q hqq
    rw [assign_currentOf_self] at hp
    rw [assign_queueOf_self] at hqq
    cases hq : s.queueOf c with
    | nil =>
      rw [hq] at hp
      simp at hp
    | cons hd tl =>
      rw [hq] at hp hqq h1
      simp only [List.head?_cons, Option.some.injEq] at hp
      subst hp
      simp only [List.tail_cons] at hqq
      simp only [List.map_cons, List.nodup_cons] at h1
      intro he
      exact h1.1 (List.mem_map.mpr ⟨q, hqq, he⟩)

theorem colorUnique_clearSeat_self {s : ConsolidatedState} {c : Color}
    (h : ColorUnique s c) : ColorUnique (s.clearSeat c) c := by
  refine ⟨by simpa using h.1, ?_⟩
  intro p hp
  simp at hp

theorem colorUnique_evict {s : ConsolidatedState} {c : Color} (now : Nat)
    (h : ColorUnique s c) : ColorUnique (assignNextPlayer (s.clearSeat c) c now) c :=
  colorUnique_assign now (colorUnique_clearSeat_self h)

/-- The other color is untouched by clear-and-reassign of a color. -/
theorem perColorUnique_evictSeat {s : ConsolidatedState} (c : Color) (now : Nat)
    (h : PerColorUnique s) : PerColorUnique (assignNextPlayer (s.clearSeat c) c now) := by
  intro c'
  by_cases hcc : c' = c
  · subst hcc
    exact colorUnique_evict now (h c')
  · refine colorUnique_congr ?_ ?_ (h c')
    · rw [assign_queueOf_other _ _ _ _ hcc]
      simp
    · rw [assign_currentOf_other _ _ _ _ hcc]
      simp [hcc]

theorem colorUnique_push {s : ConsolidatedState} {c : Color} {player : Player}
    (hq : ∀ p ∈ s.queueOf c, p.id ≠ player.id)
    (hcur : ∀ p, s.currentOf c = some p → p.id ≠ player.id)
    (h : ColorUnique s c) :
    ColorUnique (s.setQueue c (s.queueOf c ++ [player])) c := by
  obtain ⟨h1, h2⟩ := h
  constructor
  · simp only [queueOf_setQueue_self, List.map_append, List.map_cons, List.map_nil]
    rw [List.nodup_append]
    refine ⟨h1, List.nodup_singleton _, ?_⟩
    intro x hx hx2
    simp only [List.mem_singleton] at hx2
    obtain ⟨q, hqmem, hqid⟩ := List.mem_map.mp hx
    subst hx2
    exact hq q hqmem hqid
  · intro p hp q hqq
    simp only [currentOf_setQueue] at hp
    simp only [queueOf_setQueue_self] at hqq
    rcases List.mem_append.mp hqq with hq1 | hq1
    · exact h2 p hp q hq1
    · simp only [List.mem_singleton] at hq1
      subst hq1
      intro he
      exact hcur p hp he.symm

theorem colorUnique_setFilter {s : ConsolidatedState} {c : Color} (pred : Player → Bool)
    (h : ColorUnique s c) :
    ColorUnique (s.setQueue c ((s.queueOf c).filter pred)) c := by
  obtain ⟨h1, h2⟩ := h
  constructor
  · simp only [queueOf_setQueue_self]
    exact List.Nodup.sublist ((List.filter_sublist _).map Player.id) h1
  · intro p hp q hqq
    simp only [currentOf_setQueue] at hp
    simp only [queueOf_setQueue_self] at hqq
    exact h2 p hp q (List.mem_of_mem_filter hqq)

theorem perColorUnique_setFilter {s : ConsolidatedState} (c : Color) (pred : Player → Bool)
    (h : PerColorUnique s) :
    PerColorUnique (s.setQueue c ((s.queueOf c).filter pred)) := by
  intro c'
  by_cases hcc : c' = c
  · subst hcc
    exact colorUnique_setFilter pred (h c')
  · exact colorUnique_congr (by simp [hcc]) (by simp) (h c')

theorem perColorUnique_seatEvictIf {s : ConsolidatedState} (c : Color) (pid : String)
    (now : Nat) (h : PerColorUnique s) : PerColorUnique (seatEvictIf s c pid now) := by
  unfold seatEvictIf
  split
  · split
    · exact perColorUnique_evictSeat c now h
    · exact h
  · exact h

theorem perColorUnique_seatKickIf {s : ConsolidatedState} (c : Color) (name : String)
    (now : Nat) (h : PerColorUnique s) : PerColorUnique (seatKickIf s c name now).2 := by
  unfold seatKickIf
  split
  · split
    · exact perColorUnique_evictSeat c now h
    · exact h
  · exact h

theorem perColorUnique_expireColor {s : ConsolidatedState} (c : Color) (now : Nat)
    (h : PerColorUnique s) : PerColorUnique (expireColor s c now).2 := by
  cases hts : s.turnsOf c with
  | none =>
    rw [expireColor_of_none s c now hts]
    exact fun c' => colorUnique_congr (by simp) (by simp) (h c')
  | some ts =>
    by_cases hd : now > ts.deadline
    · rw [expireColor_of_dead s c now ts hts hd]
      exact perColorUnique_evictSeat c now h
    · rw [expireColor_of_live s c now ts hts hd]
      exact h

theorem perColorUnique_expire {s : ConsolidatedState} (now : Nat) (h : PerColorUnique s) :
    PerColorUnique (checkAndExpireTurnsInline s now).2 := by
  by_cases hw : getTurnFromFen s.game.fen = "w"
  · by_cases hcur : s.current.white = none
    · rw [expire_eq_of_vacant s now .w hw (by simpa using hcur)]
      exact h
    · rw [expire_eq_of_turn s now .w hw (by simpa using hcur)]
      exact perColorUnique_expireColor .w now h
  · by_cases hb : getTurnFromFen s.game.fen = "b"
    · by_cases hcur : s.current.black = none
      · rw [expire_eq_of_vacant s now .b hb (by simpa using hcur)]
        exact h
      · rw [expire_eq_of_turn s now .b hb (by simpa using hcur)]
        exact perColorUnique_expireColor .b now h
    · rw [expire_eq_of_badturn s now hw hb]
      exact h

theorem perColorUnique_join {s : ConsolidatedState} {p : Player} {c : Color} {now : Nat}
    {s' : ConsolidatedState} (h : PerColorUnique s)
    (hres : joinQueueCore s p c now = .ok s') : PerColorUnique s' := by
  unfold joinQueueCore at hres
  split at hres
  · exact absurd hres (by simp)
  · rename_i hany
    have hqids : ∀ q ∈ s.queueOf c, q.id ≠ p.id := by
      intro q hq he
      exact hany (List.any_eq_true.mpr ⟨q, hq, by simp [he]⟩)
    split at hres
    · rename_i cp hcur
      split at hres
      · exact absurd hres (by simp)
      · rename_i hne
        cases hres
        intro c'
        by_cases hcc : c' = c
        · subst hcc
          refine colorUnique_push hqids ?_ (h c')
          intro pp hpp
          rw [hcur] at hpp
          cases hpp
          exact hne
        · exact colorUnique_congr (by simp [hcc]) (by simp) (h c')
    · rename_i hcur
      cases hres
      intro c'
      by_cases hcc : c' = c
      · subst hcc
        refine colorUnique_assign now (colorUnique_push hqids ?_ (h c'))
        intro pp hpp
        rw [hcur] at hpp
        exact absurd hpp (by simp)
      · refine colorUnique_congr ?_ ?_ (h c')
        · rw [assign_queueOf_other _ _ _ _ hcc]
          simp [hcc]
        · rw [assign_currentOf_other _ _ _ _ hcc]
          simp

theorem perColorUnique_leave {s : ConsolidatedState} (pid : String) (now : Nat)
    (h : PerColorUnique s) : PerColorUnique (leaveQueueCore s pid now) := by
  unfold leaveQueueCore
  exact perColorUnique_seatEvictIf _ _ _ (perColorUnique_seatEvictIf _ _ _
    (perColorUnique_setFilter _ _ (perColorUnique_setFilter _ _ h)))

theorem perColorUnique_kick {s : ConsolidatedState} (name : String) (now : Nat)
    (h : PerColorUnique s) : PerColorUnique (kickPlayerByNameCore s name now).2 := by
  unfold kickPlayerByNameCore
  exact perColorUnique_seatKickIf _ _ _ (perColorUnique_seatKickIf _ _ _
    (perColorUnique_setFilter _ _ (perColorUnique_setFilter _ _ h)))

theorem perColorUnique_confirm {s : ConsolidatedState} {pid : String} {now : Nat}
    {s' : ConsolidatedState} (h : PerColorUnique s)
    (hres : confirmReadyCore s pid now = .ok s') : PerColorUnique s' := by
  unfold confirmReadyCore at hres
  dsimp only at hres
  split at hres
  · exact absurd hres (by simp)
  · split at hres
    · exact absurd hres (by simp)
    · split at hres
      · exact absurd hres (by simp)
      · split at hres
        · exact absurd hres (by simp)
        · split at hres
          · exact absurd hres (by simp)
          · cases hres
            exact fun c' => colorUnique_congr (by simp) (by simp) (h c')

theorem colorUnique_withGame {s : ConsolidatedState} {g : GamePart} {c : Color}
    (h : ColorUnique s c) : ColorUnique { s with game := g } c :=
  colorUnique_congr (by simp) (by simp) h

/-- Pushing the seated player to the back of its own queue and then
    clearing the seat, the rotation step of makeMove, keeps the color
    free of duplicate ids. -/
theorem colorUnique_pushClear {s : ConsolidatedState} {c : Color} {cp : Player}
    (hnophid : ∀ q ∈ s.queueOf c, q.id ≠ cp.id)
    (h1 : ((s.queueOf c).map Player.id).Nodup) :
    ColorUnique ((s.setQueue c (s.queueOf c ++ [cp])).clearSeat c) c := by
  constructor
  · simp only [queueOf_clearSeat, queueOf_setQueue_self, List.map_append,
      List.map_cons, List.map_nil]
    rw [List.nodup_append]
    refine ⟨h1, List.nodup_singleton _, ?_⟩
    intro x hx hx2
    simp only [List.mem_singleton] at hx2
    obtain ⟨q, hqmem, hqid⟩ := List.mem_map.mp hx
    subst hx2
    exact hnophid q hqmem hqid
  · intro p hp
    simp at hp

theorem perColorUnique_move {eng : ChessEngine} {s : ConsolidatedState} {pid : String}
    {mv : MoveReq} {now : Nat} {s' : ConsolidatedState} (h : PerColorUnique s)
    (hres : makeMoveCore eng s pid mv now = .ok s') : PerColorUnique s' := by
  unfold makeMoveCore at hres
  dsimp only at hres
  split at hres
  · exact absurd hres (by simp)
  · split at hres
    · exact absurd hres (by simp)
    · rename_i cp hcur
      split at hres
      · exact absurd hres (by simp)
      · split at hres
        · exact absurd hres (by simp)
        · split at hres
          · exact absurd hres (by simp)
          · split at hres
            · exact absurd hres (by simp)
            · split at hres
              · exact absurd hres (by simp)
              · rename_i newFen newHistory hmv
                cases hres
                intro c'
                refine colorUnique_congr (init_queueOf _ now c') (init_currentOf _ now c') ?_
                by_cases hcc : c' = ternaryColor s.game.fen
                · subst hcc
                  refine colorUnique_assign now (colorUnique_pushClear ?_ ?_)
                  · intro q hq
                    exact (h _).2 cp hcur q (by simpa using hq)
                  · simpa using (h _).1
                · refine colorUnique_congr ?_ ?_ (h c')
                  · rw [assign_queueOf_other _ _ _ _ hcc]
                    simp [hcc]
                  · rw [assign_currentOf_other _ _ _ _ hcc]
                    simp [hcc]

theorem perColorUnique_default : PerColorUnique createDefaultState := by
  intro c
  cases c <;>
    exact ⟨by simp [createDefaultState, ConsolidatedState.queueOf],
      by intro p hp; simp [createDefaultState, ConsolidatedState.currentOf] at hp⟩

theorem perColorUnique_runUpdate {s : ConsolidatedState} {now : Nat}
    {modifier : ConsolidatedState → Except String ConsolidatedState}
    (hmod : ∀ s0, PerColorUnique s0 → ∀ s1, modifier s0 = .ok s1 → PerColorUnique s1)
    (h : PerColorUnique s) : PerColorUnique (runUpdate s now modifier) := by
  unfold runUpdate
  dsimp only
  cases hres : modifier (checkAndExpireTurnsInline s now).2 with
  | ok s1 =>
    have h1 := hmod _ (perColorUnique_expire now h) _ hres
    exact fun c => colorUnique_congr (by simp) (by simp) (h1 c)
  | error e => exact h

theorem perColorUnique_applyOp (eng : ChessEngine) (op : Op) (now : Nat)
    {s : ConsolidatedState} (h : PerColorUnique s) :
    PerColorUnique (applyOp eng op now s) := by
  cases op with
  | join p c =>
    exact perColorUnique_runUpdate (fun s0 h0 s1 h1 => perColorUnique_join h0 h1) h
  | leave pid =>
    refine perColorUnique_runUpdate (fun s0 h0 s1 h1 => ?_) h
    cases h1
    exact perColorUnique_leave pid now h0
  | confirm pid =>
    show PerColorUnique (runUpdate s now (fun st => confirmReadyCore st pid now))
    exact perColorUnique_runUpdate (fun s0 h0 s1 h1 => perColorUnique_confirm h0 h1) h
  | move pid mv =>
    show PerColorUnique (runUpdate s now (fun st => makeMoveCore eng st pid mv now))
    exact perColorUnique_runUpdate (fun s0 h0 s1 h1 => perColorUnique_move h0 h1) h
  | expire =>
    unfold applyOp
    dsimp only
    split
    · exact fun c => colorUnique_congr (by simp) (by simp) (perColorUnique_expire now h c)
    · exact h
  | reset =>
    refine perColorUnique_runUpdate (fun s0 h0 s1 h1 => ?_) h
    cases h1
    exact fun c => colorUnique_congr (by simp [resetGameCore]) (by simp [resetGameCore]) (h0 c)
  | clearAll => exact perColorUnique_default
  | kick name =>
    refine perColorUnique_runUpdate (fun s0 h0 s1 h1 => ?_) h
    cases h1
    exact perColorUnique_kick name now h0

theorem perColorUnique_applyTrace (eng : ChessEngine) (tr : List (Op × Nat))
    {s : ConsolidatedState} (h : PerColorUnique s) :
    PerColorUnique (applyTrace eng tr s) := by
  induction tr generalizing s with
  | nil => exact h
  | cons hd tl ih => exact ih (perColorUnique_applyOp eng hd.1 hd.2 h)

/-- The number of places among white queue, black queue, current white
    and current black in which a player id appears, the quantity of
    claim C1. -/
def appearancePlaces (s : ConsolidatedState) (pid : String) : Nat :=
  (if (s.queues.white.map Player.id).contains pid then 1 else 0) +
  (if (s.queues.black.map Player.id).contains pid then 1 else 0) +
  (if s.current.white.map Player.id = some pid then 1 else 0) +
  (if s.current.black.map Player.id = some pid then 1 else 0)

/- Concrete reachable states, one operation at a time.  Each step lemma
   evaluates a single operation on a literal state, keeping evaluation
   costs linear in the trace length. -/

/-- The state after playerA joins white at time 0: seated immediately
    with a pending confirmation clock. -/
def stJoinAw : ConsolidatedState :=
  { game := { fen := START_FEN, lastMove := none, moveHistory := [] }
    queues := { white := [], black := [] }
    current := { white := some playerA, black := none }
    turns := { white := some { status := .pending_confirmation, deadline := 10000 }, black := none }
    version := 1 }

theorem step_join_Aw :
    applyOp tableEngine (.join playerA .w) 0 createDefaultState = stJoinAw := by decide

def cexC1trace : List (Op × Nat) := [(.join playerA .w, 0), (.join playerA .b, 0)]

/-- The state after playerA additionally joins black at time 0: the same
    id now occupies both seats. -/
def cexC1 : ConsolidatedState :=
  { game := { fen := START_FEN, lastMove := none, moveHistory := [] }
    queues := { white := [], black := [] }
    current := { white := some playerA, black := some playerA }
    turns := { white := some { status := .pending_confirmation, deadline := 10000 }, black := none }
    version := 2 }

theorem step_join_Ab :
    applyOp tableEngine (.join playerA .b) 0 stJoinAw = cexC1 := by decide

theorem cexC1_eq : applyTrace tableEngine cexC1trace createDefaultState = cexC1 := by
  show applyOp tableEngine (.join playerA .b) 0
      (applyOp tableEngine (.join playerA .w) 0 createDefaultState) = cexC1
  rw [step_join_Aw, step_join_Ab]

/-- C1 counterexample: joinQueue checks only the joined color, so from
    the default state the same player id can join white and then black;
    after the two successful joins the id occupies both seats at once,
    appearing in two of the four places of the claim. -/
theorem claim_C1_counterexample :
    EngineOk tableEngine ∧
    Reachable tableEngine cexC1 ∧
    cexC1.current.white = some playerA ∧
    cexC1.current.black = some playerA ∧
    appearancePlaces cexC1 playerA.id = 2 := by
  refine ⟨tableEngine_ok, ⟨cexC1trace, cexC1_eq.symm⟩, ?_, ?_, ?_⟩ <;> decide

/-- C1 amended: for every state reachable from the default initial state
    by any sequence of the operations, each color separately is free of
    duplicates: the queue of the color holds no repeated id and the
    seated player of the color does not also occur in that queue.  The
    cross-color half of the original claim is refuted by the
    counterexample, since joinQueue inspects only the joined color. -/
theorem claim_C1_amended (eng : ChessEngine) (s : ConsolidatedState)
    (h : Reachable eng s) : PerColorUnique s := by
  obtain ⟨tr, rfl⟩ := h
  exact perColorUnique_applyTrace eng tr perColorUnique_default

theorem claim_C1_amended_witness : PerColorUnique cexC1 :=
  claim_C1_amended tableEngine cexC1 ⟨cexC1trace, cexC1_eq.symm⟩

/- ------------------------------------------------------------------ -/
/- Turn-state consistency: invariant machinery for claim C2.          -/
/- ------------------------------------------------------------------ -/

/-- The other color. -/
def Color.other : Color → Color
  | .w => .b
  | .b => .w

theorem Color.other_ne (c : Color) : c.other ≠ c := by
  cases c <;> decide

theorem Color.eq_other_of_ne {c c' : Color} (h : c' ≠ c) : c' = c.other := by
  cases c <;> cases c' <;> first | rfl | simp_all

theorem ternaryColor_w {fen : String} (h : getTurnFromFen fen = "w") :
    ternaryColor fen = .w := by
  simp [ternaryColor, h]

theorem ternaryColor_b {fen : String} (h : getTurnFromFen fen = "b") :
    ternaryColor fen = .b := by
  unfold ternaryColor
  rw [h]
  decide

theorem ternary_str_of_wb {fen : String}
    (h : getTurnFromFen fen = "w" ∨ getTurnFromFen fen = "b") :
    getTurnFromFen fen = (ternaryColor fen).str := by
  rcases h with h | h
  · rw [ternaryColor_w h, h]
    rfl
  · rw [ternaryColor_b h, h]
    rfl

/-- The C2 invariant for one color: a non-null turn state implies an
    occupied seat for the color and that the FEN names this color as the
    side to move. -/
def TurnConsistent (s : ConsolidatedState) (c : Color) : Prop :=
  ∀ ts, s.turnsOf c = some ts →
    s.currentOf c ≠ none ∧ getTurnFromFen s.game.fen = c.str

def TurnsOk (s : ConsolidatedState) : Prop := ∀ c, TurnConsistent s c

/-- The half of the C2 invariant that survives resetGame: a non-null
    turn state implies an occupied seat. -/
def SeatedTurns (s : ConsolidatedState) : Prop :=
  ∀ c ts, s.turnsOf c = some ts → s.currentOf c ≠ none

theorem turnsOk_not_both {s : ConsolidatedState} (h : TurnsOk s) :
    ¬(s.turns.white ≠ none ∧ s.turns.black ≠ none) := by
  rintro ⟨hw, hb⟩
  obtain ⟨tsw, hw⟩ := Option.ne_none_iff_exists'.mp hw
  obtain ⟨tsb, hb⟩ := Option.ne_none_iff_exists'.mp hb
  have h1 := (h .w tsw hw).2
  have h2 := (h .b tsb hb).2
  rw [h1] at h2
  exact absurd h2 (by decide)

theorem turnConsistent_congr {s s' : ConsolidatedState} {c : Color}
    (ht : s'.turnsOf c = s.turnsOf c) (hc : s'.currentOf c = s.currentOf c)
    (hf : s'.game.fen = s.game.fen) (h : TurnConsistent s c) : TurnConsistent s' c := by
  intro ts hts
  rw [ht] at hts
  rw [hc, hf]
  exact h ts hts

theorem turnConsistent_assign_self (s : ConsolidatedState) (c : Color) (now : Nat) :
    TurnConsistent (assignNextPlayer s c now) c := by
  intro ts hts
  rw [assign_currentOf_self, assign_game]
  rw [assign_turnsOf_self] at hts
  cases hq : s.queueOf c with
  | nil =>
    rw [hq] at hts
    exact absurd hts (by simp)
  | cons hd tl =>
    rw [hq] at hts
    dsimp only at hts
    split at hts
    · rename_i hturn
      exact ⟨by simp [hq], hturn⟩
    · exact absurd hts (by simp)

theorem turnsOk_assign {s : ConsolidatedState} {c : Color} (now : Nat)
    (h : ∀ c', c' ≠ c → TurnConsistent s c') :
    TurnsOk (assignNextPlayer s c now) := by
  intro c'
  by_cases hcc : c' = c
  · subst hcc
    exact turnConsistent_assign_self s c' now
  · exact turnConsistent_congr (assign_turnsOf_other _ _ _ _ hcc)
      (assign_currentOf_other _ _ _ _ hcc) (by rw [assign_game]) (h c' hcc)

theorem turnsOk_assign_clear {s : ConsolidatedState} (c : Color) (now : Nat)
    (h : TurnsOk s) : TurnsOk (assignNextPlayer (s.clearSeat c) c now) := by
  refine turnsOk_assign now ?_
  intro c' hcc
  exact turnConsistent_congr (by simp [hcc]) (by simp [hcc]) (by simp) (h c')

theorem turnsOk_setTurns {s : ConsolidatedState} {c : Color} {t : TurnState}
    (hc : getTurnFromFen s.game.fen = c.str) (hcur : s.currentOf c ≠ none)
    (h : TurnsOk s) : TurnsOk (s.setTurns c (some t)) := by
  intro c'
  by_cases hcc : c' = c
  · subst hcc
    intro ts hts
    exact ⟨by simpa using hcur, by simpa using hc⟩
  · exact turnConsistent_congr (by simp [hcc]) (by simp) (by simp) (h c')

theorem turnsOk_expireColor {s : ConsolidatedState} {c : Color} (now : Nat)
    (hc : getTurnFromFen s.game.fen = c.str) (hcur : s.currentOf c ≠ none)
    (h : TurnsOk s) : TurnsOk (expireColor s c now).2 := by
  cases hts : s.turnsOf c with
  | none =>
    rw [expireColor_of_none s c now hts]
    exact turnsOk_setTurns hc hcur h
  | some ts =>
    by_cases hd : now > ts.deadline
    · rw [expireColor_of_dead s c now ts hts hd]
      exact turnsOk_assign_clear c now h
    · rw [expireColor_of_live s c now ts hts hd]
      exact h

theorem turnsOk_expire {s : ConsolidatedState} (now : Nat) (h : TurnsOk s) :
    TurnsOk (checkAndExpireTurnsInline s now).2 := by
  by_cases hw : getTurnFromFen s.game.fen = "w"
  · by_cases hcur : s.current.white = none
    · rw [expire_eq_of_vacant s now .w hw (by simpa using hcur)]
      exact h
    · rw [expire_eq_of_turn s now .w hw (by simpa using hcur)]
      exact turnsOk_expireColor now hw (by simpa using hcur) h
  · by_cases hb : getTurnFromFen s.game.fen = "b"
    · by_cases hcur : s.current.black = none
      · rw [expire_eq_of_vacant s now .b hb (by simpa using hcur)]
        exact h
      · rw [expire_eq_of_turn s now .b hb (by simpa using hcur)]
        exact turnsOk_expireColor now hb (by simpa using hcur) h
    · rw [expire_eq_of_badturn s now hw hb]
      exact h

@[simp]
theorem game_withVersion (s : ConsolidatedState) (v : Nat) :
    (ConsolidatedState.game { s with version := v }) = s.game := rfl

theorem turnsOk_setQueue {s : ConsolidatedState} {c : Color} {q : List Player}
    (h : TurnsOk s) : TurnsOk (s.setQueue c q) :=
  fun c' => turnConsistent_congr (by simp) (by simp) (by simp) (h c')

theorem turnsOk_join {s : ConsolidatedState} {p : Player} {c : Color} {now : Nat}
    {s' : ConsolidatedState} (h : TurnsOk s) (hres : joinQueueCore s p c now = .ok s') :
    TurnsOk s' := by
  unfold joinQueueCore at hres
  split at hres
  · exact absurd hres (by simp)
  · split at hres
    · split at hres
      · exact absurd hres (by simp)
      · cases hres
        exact turnsOk_setQueue h
    · cases hres
      refine turnsOk_assign now ?_
      intro c' hcc
      exact turnConsistent_congr (by simp) (by simp) (by simp) (h c')

theorem turnsOk_seatEvictIf {s : ConsolidatedState} (c : Color) (pid : String) (now : Nat)
    (h : TurnsOk s) : TurnsOk (seatEvictIf s c pid now) := by
  unfold seatEvictIf
  split
  · split
    · exact turnsOk_assign_clear c now h
    · exact h
  · exact h

theorem turnsOk_leave {s : ConsolidatedState} (pid : String) (now : Nat)
    (h : TurnsOk s) : TurnsOk (leaveQueueCore s pid now) := by
  unfold leaveQueueCore
  exact turnsOk_seatEvictIf _ _ _ (turnsOk_seatEvictIf _ _ _
    (turnsOk_setQueue (turnsOk_setQueue h)))

theorem turnsOk_seatKickIf {s : ConsolidatedState} (c : Color) (name : String) (now : Nat)
    (h : TurnsOk s) : TurnsOk (seatKickIf s c name now).2 := by
  unfold seatKickIf
  split
  · split
    · exact turnsOk_assign_clear c now h
    · exact h
  · exact h

theorem turnsOk_kick {s : ConsolidatedState} (name : String) (now : Nat)
    (h : TurnsOk s) : TurnsOk (kickPlayerByNameCore s name now).2 := by
  unfold kickPlayerByNameCore
  exact turnsOk_seatKickIf _ _ _ (turnsOk_seatKickIf _ _ _
    (turnsOk_setQueue (turnsOk_setQueue h)))

theorem turnsOk_confirm {s : ConsolidatedState} {pid : String} {now : Nat}
    {s' : ConsolidatedState} (h : TurnsOk s)
    (hres : confirmReadyCore s pid now = .ok s') : TurnsOk s' := by
  unfold confirmReadyCore at hres
  dsimp only at hres
  split at hres
  · exact absurd hres (by simp)
  · split at hres
    · exact absurd hres (by simp)
    · split at hres
      · exact absurd hres (by simp)
      · rename_i ts hts
        split at hres
        · exact absurd hres (by simp)
        · split at hres
          · exact absurd hres (by simp)
          · cases hres
            have h2 := h _ ts hts
            exact turnsOk_setTurns h2.2 h2.1 h

theorem assign_turnsOf_self_cons {s : ConsolidatedState} {c : Color} (now : Nat)
    (hne : s.queueOf c ≠ []) :
    (assignNextPlayer s c now).turnsOf c =
      if getTurnFromFen s.game.fen = c.str then
        some { status := .pending_confirmation, deadline := now + CONFIRMATION_TIMEOUT_MS }
      else none := by
  rw [assign_turnsOf_self]
  cases hq : s.queueOf c with
  | nil => exact absurd hq hne
  | cons hd tl => rfl

/-- The rotation step of a successful move: with the new FEN giving the
    move to the other color and every other-color turn state empty, the
    push, clear, reassign, initialize sequence restores the full turn
    consistency invariant. -/
theorem turnsOk_rotate (s1 : ConsolidatedState) (C : Color) (now : Nat) (cp : Player)
    (hfen1 : getTurnFromFen s1.game.fen = (C.other).str)
    (hother : ∀ c', c' ≠ C → s1.turnsOf c' = none) :
    TurnsOk (initTurnStateIfNeeded
      (assignNextPlayer ((s1.setQueue C (s1.queueOf C ++ [cp])).clearSeat C) C now) now) := by
  set X := (s1.setQueue C (s1.queueOf C ++ [cp])).clearSeat C with hX
  have hXfen : X.game.fen = s1.game.fen := by
    rw [hX]
    simp
  have hg3 : (assignNextPlayer X C now).game.fen = s1.game.fen := by
    rw [assign_game, hXfen]
  have hturn3 : getTurnFromFen (assignNextPlayer X C now).game.fen = (C.other).str := by
    rw [hg3]
    exact hfen1
  have hnone : ∀ c', (assignNextPlayer X C now).turnsOf c' = none := by
    intro c'
    by_cases hcc : c' = C
    · subst hcc
      have hne : X.queueOf c' ≠ [] := by
        rw [hX]
        simp
      rw [assign_turnsOf_self_cons now hne, if_neg]
      rw [hXfen, hfen1]
      exact Color.str_ne _ _ (Color.other_ne c')
    · rw [assign_turnsOf_other _ _ _ _ hcc, hX]
      simp only [turnsOf_clearSeat, if_neg hcc, turnsOf_setQueue]
      exact hother c' hcc
  cases hcur3 : (assignNextPlayer X C now).currentOf (C.other) with
  | none =>
    rw [init_of_vacant _ now (C.other) hturn3 hcur3]
    intro c' ts hts
    rw [hnone c'] at hts
    exact absurd hts (by simp)
  | some p3 =>
    rw [init_of_seated _ now (C.other) p3 hturn3 hcur3 (hnone _)]
    refine turnsOk_setTurns hturn3 (by simp [hcur3]) ?_
    intro c' ts hts
    rw [hnone c'] at hts
    exact absurd hts (by simp)

theorem turnsOk_move {eng : ChessEngine} (hok : EngineOk eng) {s : ConsolidatedState}
    {pid : String} {mv : MoveReq} {now : Nat} {s' : ConsolidatedState}
    (h : TurnsOk s) (hres : makeMoveCore eng s pid mv now = .ok s') : TurnsOk s' := by
  unfold makeMoveCore at hres
  dsimp only at hres
  split at hres
  · exact absurd hres (by simp)
  · rename_i hload
    split at hres
    · exact absurd hres (by simp)
    · rename_i cp hcur
      split at hres
      · exact absurd hres (by simp)
      · split at hres
        · exact absurd hres (by simp)
        · split at hres
          · exact absurd hres (by simp)
          · split at hres
            · exact absurd hres (by simp)
            · split at hres
              · exact absurd hres (by simp)
              · rename_i newFen newHistory hmv
                cases hres
                have hloadT : eng.loadOk s.game.fen = true := by
                  simpa using hload
                have hwb := hok.load_turn _ hloadT
                have hstr : getTurnFromFen s.game.fen = (ternaryColor s.game.fen).str :=
                  ternary_str_of_wb hwb
                have hflip := hok.move_flips _ _ _ _ hloadT hmv
                have hfen' : getTurnFromFen newFen = ((ternaryColor s.game.fen).other).str := by
                  rcases hwb with hw | hb
                  · rw [ternaryColor_w hw]
                    exact hflip.1 hw
                  · rw [ternaryColor_b hb]
                    exact hflip.2 hb
                refine turnsOk_rotate _ (ternaryColor s.game.fen) now cp hfen' ?_
                intro c' hcc
                simp only [turnsOf_withGame]
                cases hts' : s.turnsOf c' with
                | none => rfl
                | some ts' =>
                  have h2 := (h c' ts' hts').2
                  rw [hstr] at h2
                  exact absurd h2.symm (Color.str_ne c' _ hcc)

theorem seatedTurns_congr {s s' : ConsolidatedState}
    (ht : ∀ c, s'.turnsOf c = s.turnsOf c) (hc : ∀ c, s'.currentOf c = s.currentOf c)
    (h : SeatedTurns s) : SeatedTurns s' := by
  intro c ts hts
  rw [ht c] at hts
  rw [hc c]
  exact h c ts hts

theorem seatedTurns_assign {s : ConsolidatedState} {c : Color} {now : Nat}
    (h : ∀ c', c' ≠ c → ∀ ts, s.turnsOf c' = some ts → s.currentOf c' ≠ none) :
    SeatedTurns (assignNextPlayer s c now) := by
  intro c' ts hts
  by_cases hcc : c' = c
  · subst hcc
    rw [assign_turnsOf_self] at hts
    rw [assign_currentOf_self]
    cases hq : s.queueOf c' with
    | nil =>
      rw [hq] at hts
      exact absurd hts (by simp)
    | cons hd tl => simp [hq]
  · rw [assign_turnsOf_other _ _ _ _ hcc] at hts
    rw [assign_currentOf_other _ _ _ _ hcc]
    exact h c' hcc ts hts

theorem seatedTurns_assign_clear {s : ConsolidatedState} (c : Color) (now : Nat)
    (h : SeatedTurns s) : SeatedTurns (assignNextPlayer (s.clearSeat c) c now) := by
  refine seatedTurns_assign ?_
  intro c' hcc ts hts
  rw [turnsOf_clearSeat, if_neg hcc] at hts
  rw [currentOf_clearSeat, if_neg hcc]
  exact h c' ts hts

theorem seatedTurns_setTurns {s : ConsolidatedState} {c : Color} {t : TurnState}
    (hcur : s.currentOf c ≠ none) (h : SeatedTurns s) :
    SeatedTurns (s.setTurns c (some t)) := by
  intro c' ts hts
  by_cases hcc : c' = c
  · subst hcc
    rw [currentOf_setTurns]
    exact hcur
  · rw [turnsOf_setTurns, if_neg hcc] at hts
    rw [currentOf_setTurns]
    exact h c' ts hts

theorem seatedTurns_init {s : ConsolidatedState} (now : Nat) (h : SeatedTurns s) :
    SeatedTurns (initTurnStateIfNeeded s now) := by
  rw [init_eq]
  split
  · rename_i val heq1 heq2
    exact seatedTurns_setTurns (by rw [heq1]; simp) h
  · exact h

theorem seatedTurns_setQueue {s : ConsolidatedState} {c : Color} {q : List Player}
    (h : SeatedTurns s) : SeatedTurns (s.setQueue c q) :=
  seatedTurns_congr (by simp) (by simp) h

theorem seatedTurns_join {s : ConsolidatedState} {p : Player} {c : Color} {now : Nat}
    {s' : ConsolidatedState} (h : SeatedTurns s) (hres : joinQueueCore s p c now = .ok s') :
    SeatedTurns s' := by
  unfold joinQueueCore at hres
  split at hres
  · exact absurd hres (by simp)
  · split at hres
    · split at hres
      · exact absurd hres (by simp)
      · cases hres
        exact seatedTurns_setQueue h
    · cases hres
      refine seatedTurns_assign ?_
      intro c' hcc ts hts
      rw [turnsOf_setQueue] at hts
      rw [currentOf_setQueue]
      exact h c' ts hts

theorem seatedTurns_seatEvictIf {s : ConsolidatedState} (c : Color) (pid : String)
    (now : Nat) (h : SeatedTurns s) : SeatedTurns (seatEvictIf s c pid now) := by
  unfold seatEvictIf
  split
  · split
    · exact seatedTurns_assign_clear c now h
    · exact h
  · exact h

theorem seatedTurns_leave {s : ConsolidatedState} (pid : String) (now : Nat)
    (h : SeatedTurns s) : SeatedTurns (leaveQueueCore s pid now) := by
  unfold leaveQueueCore
  exact seatedTurns_seatEvictIf _ _ _ (seatedTurns_seatEvictIf _ _ _
    (seatedTurns_setQueue (seatedTurns_setQueue h)))

theorem seatedTurns_seatKickIf {s : ConsolidatedState} (c : Color) (name : String)
    (now : Nat) (h : SeatedTurns s) : SeatedTurns (seatKickIf s c name now).2 := by
  unfold seatKickIf
  split
  · split
    · exact seatedTurns_assign_clear c now h
    · exact h
  · exact h

theorem seatedTurns_kick {s : ConsolidatedState} (name : String) (now : Nat)
    (h : SeatedTurns s) : SeatedTurns (kickPlayerByNameCore s name now).2 := by
  unfold kickPlayerByNameCore
  exact seatedTurns_seatKickIf _ _ _ (seatedTurns_seatKickIf _ _ _
    (seatedTurns_setQueue (seatedTurns_setQueue h)))

theorem seatedTurns_confirm {s : ConsolidatedState} {pid : String} {now : Nat}
    {s' : ConsolidatedState} (h : SeatedTurns s)
    (hres : confirmReadyCore s pid now = .ok s') : SeatedTurns s' := by
  unfold confirmReadyCore at hres
  dsimp only at hres
  split at hres
  · exact absurd hres (by simp)
  · rename_i cp hcur
    split at hres
    · exact absurd hres (by simp)
    · split at hres
      · exact absurd hres (by simp)
      · split at hres
        · exact absurd hres (by simp)
        · split at hres
          · exact absurd hres (by simp)
          · cases hres
            exact seatedTurns_setTurns (by rw [hcur]; simp) h

theorem seatedTurns_move {eng : ChessEngine} {s : ConsolidatedState} {pid : String}
    {mv : MoveReq} {now : Nat} {s' : ConsolidatedState} (h : SeatedTurns s)
    (hres : makeMoveCore eng s pid mv now = .ok s') : SeatedTurns s' := by
  unfold makeMoveCore at hres
  dsimp only at hres
  split at hres
  · exact absurd hres (by simp)
  · split at hres
    · exact absurd hres (by simp)
    · split at hres
      · exact absurd hres (by simp)
      · split at hres
        · exact absurd hres (by simp)
        · split at hres
          · exact absurd hres (by simp)
          · split at hres
            · exact absurd hres (by simp)
            · split at hres
              · exact absurd hres (by simp)
              · cases hres
                refine seatedTurns_init now (seatedTurns_assign_clear _ now
                  (seatedTurns_congr ?_ ?_ h))
                · intro c'
                  simp
                · intro c'
                  simp

theorem seatedTurns_expireColor {s : ConsolidatedState} {c : Color} (now : Nat)
    (hcur : s.currentOf c ≠ none) (h : SeatedTurns s) :
    SeatedTurns (expireColor s c now).2 := by
  cases hts : s.turnsOf c with
  | none =>
    rw [expireColor_of_none s c now hts]
    exact seatedTurns_setTurns hcur h
  | some ts =>
    by_cases hd : now > ts.deadline
    · rw [expireColor_of_dead s c now ts hts hd]
      exact seatedTurns_assign_clear c now h
    · rw [expireColor_of_live s c now ts hts hd]
      exact h

theorem seatedTurns_expire {s : ConsolidatedState} (now : Nat) (h : SeatedTurns s) :
    SeatedTurns (checkAndExpireTurnsInline s now).2 := by
  by_cases hw : getTurnFromFen s.game.fen = "w"
  · by_cases hcur : s.current.white = none
    · rw [expire_eq_of_vacant s now .w hw (by simpa using hcur)]
      exact h
    · rw [expire_eq_of_turn s now .w hw (by simpa using hcur)]
      exact seatedTurns_expireColor now (by simpa using hcur) h
  · by_cases hb : getTurnFromFen s.game.fen = "b"
    · by_cases hcur : s.current.black = none
      · rw [expire_eq_of_vacant s now .b hb (by simpa using hcur)]
        exact h
      · rw [expire_eq_of_turn s now .b hb (by simpa using hcur)]
        exact seatedTurns_expireColor now (by simpa using hcur) h
    · rw [expire_eq_of_badturn s now hw hb]
      exact h

theorem turnsOk_default : TurnsOk createDefaultState := by
  intro c ts hts
  cases c <;> exact absurd hts (by simp [createDefaultState, ConsolidatedState.turnsOf])

theorem seatedTurns_default : SeatedTurns createDefaultState := by
  intro c ts hts
  cases c <;> exact absurd hts (by simp [createDefaultState, ConsolidatedState.turnsOf])

theorem turnsOk_runUpdate {s : ConsolidatedState} {now : Nat}
    {modifier : ConsolidatedState → Except String ConsolidatedState}
    (hmod : ∀ s0, TurnsOk s0 → ∀ s1, modifier s0 = .ok s1 → TurnsOk s1)
    (h : TurnsOk s) : TurnsOk (runUpdate s now modifier) := by
  unfold runUpdate
  dsimp only
  cases hres : modifier (checkAndExpireTurnsInline s now).2 with
  | ok s1 =>
    have h1 := hmod _ (turnsOk_expire now h) _ hres
    exact fun c => turnConsistent_congr (by simp) (by simp) (by simp) (h1 c)
  | error e => exact h

theorem seatedTurns_runUpdate {s : ConsolidatedState} {now : Nat}
    {modifier : ConsolidatedState → Except String ConsolidatedState}
    (hmod : ∀ s0, SeatedTurns s0 → ∀ s1, modifier s0 = .ok s1 → SeatedTurns s1)
    (h : SeatedTurns s) : SeatedTurns (runUpdate s now modifier) := by
  unfold runUpdate
  dsimp only
  cases hres : modifier (checkAndExpireTurnsInline s now).2 with
  | ok s1 =>
    have h1 := hmod _ (seatedTurns_expire now h) _ hres
    exact seatedTurns_congr (by intro c; simp) (by intro c; simp) h1
  | error e => exact h

theorem turnsOk_applyOp (eng : ChessEngine) (hok : EngineOk eng) (op : Op)
    (hop : op ≠ Op.reset) (now : Nat) {s : ConsolidatedState} (h : TurnsOk s) :
    TurnsOk (applyOp eng op now s) := by
  cases op with
  | join p c =>
    exact turnsOk_runUpdate (fun s0 h0 s1 h1 => turnsOk_join h0 h1) h
  | leave pid =>
    refine turnsOk_runUpdate (fun s0 h0 s1 h1 => ?_) h
    cases h1
    exact turnsOk_leave pid now h0
  | confirm pid =>
    show TurnsOk (runUpdate s now (fun st => confirmReadyCore st pid now))
    exact turnsOk_runUpdate (fun s0 h0 s1 h1 => turnsOk_confirm h0 h1) h
  | move pid mv =>
    show TurnsOk (runUpdate s now (fun st => makeMoveCore eng st pid mv now))
    exact turnsOk_runUpdate (fun s0 h0 s1 h1 => turnsOk_move hok h0 h1) h
  | expire =>
    unfold applyOp
    dsimp only
    split
    · exact fun c => turnConsistent_congr (by simp) (by simp) (by simp)
        (turnsOk_expire now h c)
    · exact h
  | reset => exact absurd rfl hop
  | clearAll => exact turnsOk_default
  | kick name =>
    refine turnsOk_runUpdate (fun s0 h0 s1 h1 => ?_) h
    cases h1
    exact turnsOk_kick name now h0

theorem seatedTurns_applyOp (eng : ChessEngine) (op : Op) (now : Nat)
    {s : ConsolidatedState} (h : SeatedTurns s) : SeatedTurns (applyOp eng op now s) := by
  cases op with
  | join p c =>
    exact seatedTurns_runUpdate (fun s0 h0 s1 h1 => seatedTurns_join h0 h1) h
  | leave pid =>
    refine seatedTurns_runUpdate (fun s0 h0 s1 h1 => ?_) h
    cases h1
    exact seatedTurns_leave pid now h0
  | confirm pid =>
    show SeatedTurns (runUpdate s now (fun st => confirmReadyCore st pid now))
    exact seatedTurns_runUpdate (fun s0 h0 s1 h1 => seatedTurns_confirm h0 h1) h
  | move pid mv =>
    show SeatedTurns (runUpdate s now (fun st => makeMoveCore eng st pid mv now))
    exact seatedTurns_runUpdate (fun s0 h0 s1 h1 => seatedTurns_move h0 h1) h
  | expire =>
    unfold applyOp
    dsimp only
    split
    · exact seatedTurns_congr (by intro c; simp) (by intro c; simp)
        (seatedTurns_expire now h)
    · exact h
  | reset =>
    refine seatedTurns_runUpdate (fun s0 h0 s1 h1 => ?_) h
    cases h1
    exact seatedTurns_congr (by intro c; cases c <;> rfl) (by intro c; cases c <;> rfl) h0
  | clearAll => exact seatedTurns_default
  | kick name =>
    refine seatedTurns_runUpdate (fun s0 h0 s1 h1 => ?_) h
    cases h1
    exact seatedTurns_kick name now h0

/-- A trace containing no resetGame operation. -/
def ResetFree (tr : List (Op × Nat)) : Prop := ∀ p ∈ tr, p.1 ≠ Op.reset

theorem turnsOk_applyTrace (eng : ChessEngine) (hok : EngineOk eng)
    (tr : List (Op × Nat)) (htr : ResetFree tr) {s : ConsolidatedState}
    (h : TurnsOk s) : TurnsOk (applyTrace eng tr s) := by
  induction tr generalizing s with
  | nil => exact h
  | cons hd tl ih =>
    exact ih (fun p hp => htr p (List.mem_cons_of_mem hd hp))
      (turnsOk_applyOp eng hok hd.1 (htr hd (List.mem_cons_self hd tl)) hd.2 h)

theorem seatedTurns_applyTrace (eng : ChessEngine) (tr : List (Op × Nat))
    {s : ConsolidatedState} (h : SeatedTurns s) : SeatedTurns (applyTrace eng tr s) := by
  induction tr generalizing s with
  | nil => exact h
  | cons hd tl ih => exact ih (seatedTurns_applyOp eng hd.1 hd.2 h)

/-- The state after playerA confirms at time 1: the white clock switches
    to the move window. -/
def stConfirmA : ConsolidatedState :=
  { game := { fen := START_FEN, lastMove := none, moveHistory := [] }
    queues := { white := [], black := [] }
    current := { white := some playerA, black := none }
    turns := { white := some { status := .confirmed, deadline := 30001 }, black := none }
    version := 2 }

theorem step_confirm_A :
    applyOp tableEngine (.confirm playerA.id) 1 stJoinAw = stConfirmA := by decide

/-- The state after playerA plays e2e4 at time 2: black to move, playerA
    rotated through the empty white queue back to the seat, on deck with
    no clock. -/
def stMoveA : ConsolidatedState :=
  { game :=
      { fen := FEN_AFTER_E4
        lastMove := some { fromSq := "e2", toSq := "e4" }
        moveHistory := ["e4"] }
    queues := { white := [], black := [] }
    current := { white := some playerA, black := none }
    turns := { white := none, black := none }
    version := 3 }

theorem step_move_A :
    applyOp tableEngine (.move playerA.id e2e4) 2 stConfirmA = stMoveA := by decide

/-- The state after playerB joins black at time 3: seated with a pending
    confirmation clock, because black is to move. -/
def stJoinBb : ConsolidatedState :=
  { game :=
      { fen := FEN_AFTER_E4
        lastMove := some { fromSq := "e2", toSq := "e4" }
        moveHistory := ["e4"] }
    queues := { white := [], black := [] }
    current := { white := some playerA, black := some playerB }
    turns :=
      { white := none
        black := some { status := .pending_confirmation, deadline := 10003 } }
    version := 4 }

theorem step_join_Bb :
    applyOp tableEngine (.join playerB .b) 3 stMoveA = stJoinBb := by decide

/-- The state after resetGame at time 4: the FEN is back to the starting
    position with white to move, but the stale black turn state survives
    the reset untouched. -/
def cexC2 : ConsolidatedState :=
  { game := { fen := START_FEN, lastMove := none, moveHistory := [] }
    queues := { white := [], black := [] }
    current := { white := some playerA, black := some playerB }
    turns :=
      { white := none
        black := some { status := .pending_confirmation, deadline := 10003 } }
    version := 5 }

theorem step_reset_C2 :
    applyOp tableEngine .reset 4 stJoinBb = cexC2 := by decide

def cexC2trace : List (Op × Nat) :=
  [(.join playerA .w, 0), (.confirm playerA.id, 1), (.move playerA.id e2e4, 2),
   (.join playerB .b, 3), (.reset, 4)]

theorem cexC2_eq : applyTrace tableEngine cexC2trace createDefaultState = cexC2 := by
  show applyOp tableEngine .reset 4 (applyOp tableEngine (.join playerB .b) 3
    (applyOp tableEngine (.move playerA.id e2e4) 2 (applyOp tableEngine (.confirm playerA.id) 1
      (applyOp tableEngine (.join playerA .w) 0 createDefaultState)))) = cexC2
  rw [step_join_Aw, step_confirm_A, step_move_A, step_join_Bb, step_reset_C2]

/-- C2 counterexample: resetGame replaces only the game component, so a
    reachable state exists in which turns.black is non-null while the
    FEN of the reset game gives the move to white, refuting the claimed
    invariant that a non-null turn state implies that its color is the
    side to move. -/
theorem claim_C2_counterexample :
    EngineOk tableEngine ∧
    Reachable tableEngine cexC2 ∧
    cexC2.turns.black = some { status := .pending_confirmation, deadline := 10003 } ∧
    cexC2.current.black = some playerB ∧
    getTurnFromFen cexC2.game.fen = "w" :=
  ⟨tableEngine_ok, ⟨cexC2trace, cexC2_eq.symm⟩, rfl, rfl, by decide⟩

/-- C2 amended: the full invariant, a non-null turn state of a color
    implies an occupied seat for that color and that the FEN gives the
    move to exactly that color, and hence that the two turn states are
    never simultaneously non-null, holds for every state reached by a
    sequence of operations that contains no resetGame, for every engine
    satisfying the chess facts EngineOk; the seat half of the invariant,
    a non-null turn state implies an occupied seat, holds for every
    reachable state, resetGame included.  The counterexample shows the
    FEN half fails on states reached through resetGame. -/
theorem claim_C2_amended :
    (∀ eng, EngineOk eng → ∀ tr, ResetFree tr →
      TurnsOk (applyTrace eng tr createDefaultState)) ∧
    (∀ eng s, Reachable eng s → SeatedTurns s) ∧
    (∀ s, TurnsOk s → ¬(s.turns.white ≠ none ∧ s.turns.black ≠ none)) := by
  refine ⟨?_, ?_, ?_⟩
  · intro eng hok tr htr
    exact turnsOk_applyTrace eng hok tr htr turnsOk_default
  · rintro eng s ⟨tr, rfl⟩
    exact seatedTurns_applyTrace eng tr seatedTurns_default
  · intro s h
    exact turnsOk_not_both h

theorem claim_C2_amended_witness :
    TurnsOk cexC1 ∧ SeatedTurns cexC2 ∧
    ¬(cexC1.turns.white ≠ none ∧ cexC1.turns.black ≠ none) := by
  have h1 : TurnsOk cexC1 :=
    cexC1_eq ▸ claim_C2_amended.1 tableEngine tableEngine_ok cexC1trace
      (by unfold ResetFree; decide)
  exact ⟨h1, claim_C2_amended.2.1 tableEngine cexC2 ⟨cexC2trace, cexC2_eq.symm⟩,
    claim_C2_amended.2.2 cexC1 h1⟩

/- ------------------------------------------------------------------ -/
/- The optimistic mutation coordinator: model for claim C3.           -/
/- ------------------------------------------------------------------ -/

theorem expireColor_version (s : ConsolidatedState) (c : Color) (now : Nat) :
    (expireColor s c now).2.version = s.version := by
  cases hts : s.turnsOf c with
  | none =>
    rw [expireColor_of_none s c now hts]
    simp
  | some ts =>
    by_cases hd : now > ts.deadline
    · rw [expireColor_of_dead s c now ts hts hd]
      rw [assign_version]
      simp
    · rw [expireColor_of_live s c now ts hts hd]

/-- The lazy expiry never touches the version field; updateState bumps
    the version exactly once itself. -/
theorem expire_version (s : ConsolidatedState) (now : Nat) :
    (checkAndExpireTurnsInline s now).2.version = s.version := by
  by_cases hw : getTurnFromFen s.game.fen = "w"
  · by_cases hcur : s.current.white = none
    · rw [expire_eq_of_vacant s now .w hw (by simpa using hcur)]
    · rw [expire_eq_of_turn s now .w hw (by simpa using hcur)]
      exact expireColor_version s .w now
  · by_cases hb : getTurnFromFen s.game.fen = "b"
    · by_cases hcur : s.current.black = none
      · rw [expire_eq_of_vacant s now .b hb (by simpa using hcur)]
      · rw [expire_eq_of_turn s now .b hb (by simpa using hcur)]
        exact expireColor_version s .b now
    · rw [expire_eq_of_badturn s now hw hb]

/-- What one attempt of RedisStore.updateState observes of the store:
    the state returned by the initial GET and the state returned by the
    version re-read before the conditional write; none models a missing
    record, read as the default state or version 0 respectively. -/
structure AttemptView where
  first : Option ConsolidatedState
  second : Option ConsolidatedState
deriving DecidableEq

/-- The result record of updateState. -/
structure UpdateResult where
  success : Bool
  state : ConsolidatedState
  error : Option String
deriving DecidableEq

/-- RedisStore.updateState, gameStore.ts lines 642-694, as a function of
    the modifier and of the store observations of the successive
    attempts; the returned list is the sequence of redis.set writes.
    Each attempt performs a single GET, runs the lazy expiry on the read
    state, applies the modifier, returns a business failure immediately
    without writing, otherwise increments the version, re-reads the
    current version and either writes the modified state when the
    version still matches or retries with the next attempt; running out
    of attempts is the post-loop concurrent-modification exit. -/
def updateStateGo (modifier : ConsolidatedState → Except String ConsolidatedState)
    (now : Nat) : List AttemptView → UpdateResult × List ConsolidatedState
  | [] =>
    ({ success := false, state := createDefaultState,
       error := some "Concurrent modification - please retry" }, [])
  | v :: rest =>
    let state1 := (checkAndExpireTurnsInline (v.first.getD createDefaultState) now).2
    let originalVersion := state1.version
    match modifier state1 with
    | .error e => ({ success := false, state := state1, error := some e }, [])
    | .ok s2 =>
      let s3 := { s2 with version := s2.version + 1 }
      let currentVersion := (v.second.map ConsolidatedState.version).getD 0
      if currentVersion ≠ originalVersion then updateStateGo modifier now rest
      else ({ success := true, state := s3, error := none }, [s3])

/-- updateState with the maxRetries bound of 3 attempts of the source. -/
def updateState (modifier : ConsolidatedState → Except String ConsolidatedState)
    (now : Nat) (v1 v2 v3 : AttemptView) : UpdateResult × List ConsolidatedState :=
  updateStateGo modifier now [v1, v2, v3]

/-- C3: the coordinator contract.  A business failure of the transition
    is returned immediately, with no write and no retry, whatever store
    observations would have followed; a version conflict, the version of
    the re-read differing from the version read at the start of the
    cycle, retries the whole cycle on the freshly read next observation;
    exhausting the attempts yields the concurrent-modification error and
    no write; a version match writes exactly the modified state with its
    version incremented and returns it; and the retry bound is exactly
    the three attempts of maxRetries. -/
theorem claim_C3 :
    (∀ modifier now (v : AttemptView) rest e,
      modifier (checkAndExpireTurnsInline (v.first.getD createDefaultState) now).2 =
        .error e →
      updateStateGo modifier now (v :: rest) =
        ({ success := false,
           state := (checkAndExpireTurnsInline (v.first.getD createDefaultState) now).2,
           error := some e }, [])) ∧
    (∀ modifier now (v : AttemptView) rest s2,
      modifier (checkAndExpireTurnsInline (v.first.getD createDefaultState) now).2 =
        .ok s2 →
      (v.second.map ConsolidatedState.version).getD 0 ≠
        (v.first.getD createDefaultState).version →
      updateStateGo modifier now (v :: rest) = updateStateGo modifier now rest) ∧
    (∀ modifier now,
      updateStateGo modifier now [] =
        ({ success := false, state := createDefaultState,
           error := some "Concurrent modification - please retry" }, [])) ∧
    (∀ modifier now (v : AttemptView) rest s2,
      modifier (checkAndExpireTurnsInline (v.first.getD createDefaultState) now).2 =
        .ok s2 →
      (v.second.map ConsolidatedState.version).getD 0 =
        (v.first.getD createDefaultState).version →
      updateStateGo modifier now (v :: rest) =
        ({ success := true, state := { s2 with version := s2.version + 1 }, error := none },
         [{ s2 with version := s2.version + 1 }])) ∧
    (∀ modifier now v1 v2 v3,
      updateState modifier now v1 v2 v3 = updateStateGo modifier now [v1, v2, v3]) := by
  refine ⟨?_, ?_, ?_, ?_, ?_⟩
  · intro modifier now v rest e hmod
    simp only [updateStateGo]
    rw [hmod]
  · intro modifier now v rest s2 hmod hne
    simp only [updateStateGo]
    rw [hmod]
    dsimp only
    rw [if_pos]
    rw [expire_version]
    exact hne
  · intro modifier now
    rfl
  · intro modifier now v rest s2 hmod heq
    simp only [updateStateGo]
    rw [hmod]
    dsimp only
    rw [if_neg]
    rw [expire_version]
    exact not_ne_iff.mpr heq
  · intro modifier now v1 v2 v3
    rfl

theorem claim_C3_witness :
    (updateStateGo (fun st => confirmReadyCore st playerB.id 0) 0
        [{ first := some createDefaultState, second := some createDefaultState }] =
      ({ success := false, state := createDefaultState, error := some "Not your turn" }, [])) ∧
    (updateStateGo (fun st => .ok st) 0
        [{ first := some createDefaultState, second := some stJoinAw }] =
      updateStateGo (fun st => .ok st) 0 []) ∧
    (updateStateGo (fun st => .ok st) 0 [] =
      ({ success := false, state := createDefaultState,
         error := some "Concurrent modification - please retry" }, [])) ∧
    (updateStateGo (fun st => .ok st) 0
        [{ first := some createDefaultState, second := some createDefaultState }] =
      ({ success := true, state := { createDefaultState with version := 1 }, error := none },
       [{ createDefaultState with version := 1 }])) :=
  ⟨claim_C3.1 _ 0 _ [] "Not your turn" rfl,
   claim_C3.2.1 _ 0 _ [] _ rfl (by decide),
   claim_C3.2.2.1 _ 0,
   claim_C3.2.2.2.1 _ 0 _ [] _ rfl (by decide)⟩

/- ------------------------------------------------------------------ -/
/- Claim C4: confirmation timeout eviction.                           -/
/- ------------------------------------------------------------------ -/

@[simp]
theorem queueOf_w (s : ConsolidatedState) : s.queueOf .w = s.queues.white := rfl

@[simp]
theorem queueOf_b (s : ConsolidatedState) : s.queueOf .b = s.queues.black := rfl

@[simp]
theorem turnsOf_w (s : ConsolidatedState) : s.turnsOf .w = s.turns.white := rfl

@[simp]
theorem turnsOf_b (s : ConsolidatedState) : s.turnsOf .b = s.turns.black := rfl

@[simp]
theorem queues_setCurrent (s : ConsolidatedState) (c : Color) (p : Option Player) :
    (s.setCurrent c p).queues = s.queues := by
  cases c <;> rfl

@[simp]
theorem queues_setTurns (s : ConsolidatedState) (c : Color) (t : Option TurnState) :
    (s.setTurns c t).queues = s.queues := by
  cases c <;> rfl

@[simp]
theorem queues_clearSeat (s : ConsolidatedState) (c : Color) :
    (s.clearSeat c).queues = s.queues := by
  simp [ConsolidatedState.clearSeat]

@[simp]
theorem current_setQueue (s : ConsolidatedState) (c : Color) (q : List Player) :
    (s.setQueue c q).current = s.current := by
  cases c <;> rfl

@[simp]
theorem current_setTurns (s : ConsolidatedState) (c : Color) (t : Option TurnState) :
    (s.setTurns c t).current = s.current := by
  cases c <;> rfl

@[simp]
theorem turns_setQueue (s : ConsolidatedState) (c : Color) (q : List Player) :
    (s.setQueue c q).turns = s.turns := by
  cases c <;> rfl

@[simp]
theorem turns_setCurrent (s : ConsolidatedState) (c : Color) (p : Option Player) :
    (s.setCurrent c p).turns = s.turns := by
  cases c <;> rfl

/-- C4: in a state where white is to move, the seated white player has a
    pending confirmation with deadline T, and the record is touched at a
    time after T, the lazy expiry run by every operation reports a
    change, clears the white seat and turn state, seats the head of the
    white queue with a fresh pending clock, and drops the evicted
    player; in the resulting state both confirmReady and makeMove by the
    evicted id fail with the Not-your-turn error, at any later time.
    The hypothesis that the evicted id does not sit in the white queue
    is the per-color uniqueness invariant of claim C1. -/
theorem claim_C4 (eng : ChessEngine) (s : ConsolidatedState) (now T : Nat) (C : Player)
    (hturn : getTurnFromFen s.game.fen = "w")
    (hts : s.turns.white = some { status := .pending_confirmation, deadline := T })
    (hcur : s.current.white = some C)
    (hexp : now > T)
    (hqueue : ∀ q ∈ s.queues.white, q.id ≠ C.id)
    (hload : eng.loadOk s.game.fen = true) :
    (checkAndExpireTurnsInline s now).1 = true ∧
    (checkAndExpireTurnsInline s now).2.current.white = s.queues.white.head? ∧
    (checkAndExpireTurnsInline s now).2.queues.white = s.queues.white.tail ∧
    (checkAndExpireTurnsInline s now).2.turns.white =
      (match s.queues.white with
       | [] => none
       | _ :: _ =>
         some { status := .pending_confirmation, deadline := now + CONFIRMATION_TIMEOUT_MS }) ∧
    (∀ now2, confirmReadyCore (checkAndExpireTurnsInline s now).2 C.id now2 =
      .error "Not your turn") ∧
    (∀ now2 mv, makeMoveCore eng (checkAndExpireTurnsInline s now).2 C.id mv now2 =
      .error "Not your turn") := by
  have hcur' : s.currentOf .w ≠ none := by simp [hcur]
  have hE : checkAndExpireTurnsInline s now =
      (true, assignNextPlayer (s.clearSeat .w) .w now) := by
    rw [expire_eq_of_turn s now .w hturn hcur']
    exact expireColor_of_dead s .w now _ hts hexp
  rw [hE]
  refine ⟨rfl, ?_, ?_, ?_, ?_, ?_⟩
  · rw [← currentOf_w, assign_currentOf_self]
    simp
  · rw [← queueOf_w, assign_queueOf_self]
    simp
  · rw [← turnsOf_w, assign_turnsOf_self]
    simp only [queueOf_w, queues_clearSeat, game_clearSeat]
    cases s.queues.white with
    | nil => rfl
    | cons hd tl =>
      dsimp only
      rw [if_pos (show getTurnFromFen s.game.fen = Color.w.str by rw [hturn]; rfl)]
  · intro now2
    unfold confirmReadyCore
    dsimp only
    rw [show ternaryColor (assignNextPlayer (s.clearSeat .w) .w now).game.fen = Color.w by
      rw [assign_game, game_clearSeat]; exact ternaryColor_w hturn]
    rw [assign_currentOf_self]
    simp only [queueOf_w, queues_clearSeat]
    cases hq : s.queues.white with
    | nil => rfl
    | cons hd tl =>
      simp only [List.head?_cons]
      rw [if_pos (hqueue hd (by rw [hq]; exact List.mem_cons_self hd tl))]
  · intro now2 mv
    unfold makeMoveCore
    dsimp only
    rw [show (assignNextPlayer (s.clearSeat .w) .w now).game.fen = s.game.fen by
      rw [assign_game, game_clearSeat]]
    rw [hload, if_neg (show ¬(true = false) by decide)]
    rw [ternaryColor_w hturn]
    rw [assign_currentOf_self]
    simp only [queueOf_w, queues_clearSeat]
    cases hq : s.queues.white with
    | nil => rfl
    | cons hd tl =>
      simp only [List.head?_cons]
      rw [if_pos (hqueue hd (by rw [hq]; exact List.mem_cons_self hd tl))]

/-- A concrete C4 scenario: playerC seated on white with an expired
    pending confirmation, playerB waiting in the white queue. -/
def stC4 : ConsolidatedState :=
  { game := { fen := START_FEN, lastMove := none, moveHistory := [] }
    queues := { white := [playerB], black := [] }
    current := { white := some playerC, black := none }
    turns := { white := some { status := .pending_confirmation, deadline := 5 }, black := none }
    version := 7 }

theorem claim_C4_witness :
    (checkAndExpireTurnsInline stC4 6).1 = true ∧
    (checkAndExpireTurnsInline stC4 6).2.current.white = some playerB ∧
    (checkAndExpireTurnsInline stC4 6).2.queues.white = [] ∧
    (checkAndExpireTurnsInline stC4 6).2.turns.white =
      some { status := .pending_confirmation, deadline := 6 + CONFIRMATION_TIMEOUT_MS } ∧
    confirmReadyCore (checkAndExpireTurnsInline stC4 6).2 playerC.id 7 =
      .error "Not your turn" ∧
    makeMoveCore tableEngine (checkAndExpireTurnsInline stC4 6).2 playerC.id e2e4 7 =
      .error "Not your turn" := by
  have h := claim_C4 tableEngine stC4 6 5 playerC (by decide) rfl rfl (by decide)
    (by decide) (by decide)
  exact ⟨h.1, h.2.1, h.2.2.1, h.2.2.2.1, h.2.2.2.2.1 7, h.2.2.2.2.2 7 e2e4⟩

/- ------------------------------------------------------------------ -/
/- Claim C5: rotation after a successful move.                        -/
/- ------------------------------------------------------------------ -/

/-- The state built by the success branch of makeMove: game replaced by
    the engine output, the mover pushed to the back of its queue, the
    seat cleared and reassigned, and the turn state of the side now to
    move initialized when a player already sits there. -/
def moveRotate (s : ConsolidatedState) (c : Color) (cp : Player) (mv : MoveReq)
    (newFen : String) (newHistory : List String) (now : Nat) : ConsolidatedState :=
  let s1 : ConsolidatedState :=
    { s with game :=
      { fen := newFen
        lastMove := some { fromSq := mv.fromSq, toSq := mv.toSq }
        moveHistory := newHistory } }
  initTurnStateIfNeeded
    (assignNextPlayer ((s1.setQueue c (s1.queueOf c ++ [cp])).clearSeat c) c now) now

/-- C5: white queue [A, B], C seated confirmed and unexpired on white,
    D seated on black without a turn state, white to move.  A legal move
    by C updates the game to the engine output, pushes C to the back of
    the white queue, seats A on white with no clock running since black
    now moves, leaves D seated, starts the black pending-confirmation
    clock at now plus the confirmation timeout, and bumps the version by
    one. -/
theorem claim_C5 (eng : ChessEngine) (s : ConsolidatedState) (now d : Nat)
    (A B C D : Player) (mv : MoveReq) (newFen : String) (newHistory : List String)
    (hturn : getTurnFromFen s.game.fen = "w")
    (hq : s.queues.white = [A, B])
    (hcur : s.current.white = some C)
    (hts : s.turns.white = some { status := .confirmed, deadline := d })
    (hnd : ¬now > d)
    (hcurB : s.current.black = some D)
    (htsB : s.turns.black = none)
    (hload : eng.loadOk s.game.fen = true)
    (hmv : eng.move s.game.fen mv = some (newFen, newHistory))
    (hfen2 : getTurnFromFen newFen = "b") :
    (applyOp eng (.move C.id mv) now s).game.fen = newFen ∧
    (applyOp eng (.move C.id mv) now s).game.lastMove =
      some { fromSq := mv.fromSq, toSq := mv.toSq } ∧
    (applyOp eng (.move C.id mv) now s).game.moveHistory = newHistory ∧
    (applyOp eng (.move C.id mv) now s).queues.white = [B, C] ∧
    (applyOp eng (.move C.id mv) now s).queues.black = s.queues.black ∧
    (applyOp eng (.move C.id mv) now s).current.white = some A ∧
    (applyOp eng (.move C.id mv) now s).current.black = some D ∧
    (applyOp eng (.move C.id mv) now s).turns.white = none ∧
    (applyOp eng (.move C.id mv) now s).turns.black =
      some { status := .pending_confirmation, deadline := now + CONFIRMATION_TIMEOUT_MS } ∧
    (applyOp eng (.move C.id mv) now s).version = s.version + 1 := by
  have hcur' : s.currentOf .w ≠ none := by simp [hcur]
  have hE : checkAndExpireTurnsInline s now = (false, s) := by
    rw [expire_eq_of_turn s now .w hturn hcur']
    exact expireColor_of_live s .w now _ hts hnd
  have hcore : makeMoveCore eng s C.id mv now =
      .ok (moveRotate s .w C mv newFen newHistory now) := by
    unfold makeMoveCore
    dsimp only
    rw [hload, if_neg (show ¬(true = false) by decide)]
    rw [ternaryColor_w hturn]
    rw [show s.currentOf Color.w = some C from hcur]
    dsimp only
    rw [if_neg (show ¬(C.id ≠ C.id) by simp)]
    rw [show s.turnsOf Color.w = some { status := TurnStatus.confirmed, deadline := d } from hts]
    dsimp only
    rw [if_neg (show ¬(TurnStatus.confirmed ≠ TurnStatus.confirmed) by simp)]
    rw [if_neg hnd]
    rw [hmv]
    rfl
  have hrot : moveRotate s .w C mv newFen newHistory now =
      (assignNextPlayer
        ((ConsolidatedState.setQueue
            { s with game :=
              { fen := newFen
                lastMove := some { fromSq := mv.fromSq, toSq := mv.toSq }
                moveHistory := newHistory } }
            Color.w (s.queues.white ++ [C])).clearSeat Color.w) Color.w now).setTurns Color.b
        (some { status := .pending_confirmation,
                deadline := now + CONFIRMATION_TIMEOUT_MS }) := by
    unfold moveRotate
    dsimp only
    refine init_of_seated _ now Color.b D ?_ ?_ ?_
    · rw [assign_game]
      simp only [game_clearSeat, game_setQueue]
      exact hfen2
    · rw [assign_currentOf_other _ _ _ _ (show Color.b ≠ Color.w by decide)]
      exact hcurB
    · rw [assign_turnsOf_other _ _ _ _ (show Color.b ≠ Color.w by decide)]
      exact htsB
  have hR : applyOp eng (.move C.id mv) now s =
      { moveRotate s .w C mv newFen newHistory now with
        version := (moveRotate s .w C mv newFen newHistory now).version + 1 } := by
    show runUpdate s now (fun st => makeMoveCore eng st C.id mv now) = _
    unfold runUpdate
    dsimp only
    rw [hE]
    dsimp only
    rw [hcore]
  have Fgame : (moveRotate s .w C mv newFen newHistory now).game =
      { fen := newFen, lastMove := some { fromSq := mv.fromSq, toSq := mv.toSq },
        moveHistory := newHistory } := by
    rw [hrot, game_setTurns, assign_game, game_clearSeat, game_setQueue]
  have Ffen : (moveRotate s .w C mv newFen newHistory now).game.fen = newFen := by
    rw [Fgame]
  have Flast : (moveRotate s .w C mv newFen newHistory now).game.lastMove =
      some { fromSq := mv.fromSq, toSq := mv.toSq } := by
    rw [Fgame]
  have Fhist : (moveRotate s .w C mv newFen newHistory now).game.moveHistory = newHistory := by
    rw [Fgame]
  have F4 : (moveRotate s .w C mv newFen newHistory now).queueOf .w = [B, C] := by
    rw [hrot, queueOf_setTurns, assign_queueOf_self, queueOf_clearSeat,
      queueOf_setQueue_self, hq]
    rfl
  have F5 : (moveRotate s .w C mv newFen newHistory now).queueOf .b = s.queues.black := by
    rw [hrot, queueOf_setTurns, assign_queueOf_other _ _ _ _ (show Color.b ≠ Color.w by decide),
      queueOf_clearSeat, queueOf_setQueue]
    rw [if_neg (show ¬(Color.b = Color.w) by decide)]
    rfl
  have F6 : (moveRotate s .w C mv newFen newHistory now).currentOf .w = some A := by
    rw [hrot, currentOf_setTurns, assign_currentOf_self, queueOf_clearSeat,
      queueOf_setQueue_self, hq]
    rfl
  have F7 : (moveRotate s .w C mv newFen newHistory now).currentOf .b = some D := by
    rw [hrot, currentOf_setTurns, assign_currentOf_other _ _ _ _
      (show Color.b ≠ Color.w by decide)]
    exact hcurB
  have F8 : (moveRotate s .w C mv newFen newHistory now).turnsOf .w = none := by
    rw [hrot, turnsOf_setTurns]
    rw [if_neg (show ¬(Color.w = Color.b) by decide)]
    rw [assign_turnsOf_self_cons now (by rw [queueOf_clearSeat, queueOf_setQueue_self, hq]; simp)]
    rw [game_clearSeat, game_setQueue]
    dsimp only
    rw [hfen2]
    rfl
  have F9 : (moveRotate s .w C mv newFen newHistory now).turnsOf .b =
      some { status := .pending_confirmation, deadline := now + CONFIRMATION_TIMEOUT_MS } := by
    rw [hrot, turnsOf_setTurns_self]
  have Fver : (moveRotate s .w C mv newFen newHistory now).version = s.version := by
    rw [hrot, version_setTurns, assign_version, version_clearSeat, version_setQueue]
  rw [hR]
  exact ⟨Ffen, Flast, Fhist, F4, F5, F6, F7, F8, F9, congrArg (fun n => n + 1) Fver⟩

def playerD : Player := { id := "player_1_dddddddd", name := "Dana", joinedAt := 0 }

/-- A concrete C5 scenario: white queue [playerA, playerB], playerC
    seated confirmed on white, playerD on deck on black. -/
def stC5 : ConsolidatedState :=
  { game := { fen := START_FEN, lastMove := none, moveHistory := [] }
    queues := { white := [playerA, playerB], black := [] }
    current := { white := some playerC, black := some playerD }
    turns := { white := some { status := .confirmed, deadline := 100 }, black := none }
    version := 9 }

theorem claim_C5_witness :
    (applyOp tableEngine (.move playerC.id e2e4) 3 stC5).game.fen = FEN_AFTER_E4 ∧
    (applyOp tableEngine (.move playerC.id e2e4) 3 stC5).game.lastMove =
      some { fromSq := "e2", toSq := "e4" } ∧
    (applyOp tableEngine (.move playerC.id e2e4) 3 stC5).game.moveHistory = ["e4"] ∧
    (applyOp tableEngine (.move playerC.id e2e4) 3 stC5).queues.white = [playerB, playerC] ∧
    (applyOp tableEngine (.move playerC.id e2e4) 3 stC5).queues.black = stC5.queues.black ∧
    (applyOp tableEngine (.move playerC.id e2e4) 3 stC5).current.white = some playerA ∧
    (applyOp tableEngine (.move playerC.id e2e4) 3 stC5).current.black = some playerD ∧
    (applyOp tableEngine (.move playerC.id e2e4) 3 stC5).turns.white = none ∧
    (applyOp tableEngine (.move playerC.id e2e4) 3 stC5).turns.black =
      some { status := .pending_confirmation, deadline := 3 + CONFIRMATION_TIMEOUT_MS } ∧
    (applyOp tableEngine (.move playerC.id e2e4) 3 stC5).version = stC5.version + 1 :=
  claim_C5 tableEngine stC5 3 100 playerA playerB playerC playerD e2e4 FEN_AFTER_E4 ["e4"]
    (by decide) rfl rfl rfl (by decide) rfl rfl (by decide) rfl (by decide)

/- ------------------------------------------------------------------ -/
/- Version arithmetic of the operations: claim C6.                    -/
/- ------------------------------------------------------------------ -/

theorem joinCore_version {s : ConsolidatedState} {p : Player} {c : Color} {now : Nat}
    {s' : ConsolidatedState} (h : joinQueueCore s p c now = .ok s') :
    s'.version = s.version := by
  unfold joinQueueCore at h
  split at h
  · exact absurd h (by simp)
  · split at h
    · split at h
      · exact absurd h (by simp)
      · cases h
        rw [version_setQueue]
    · cases h
      rw [assign_version, version_setQueue]

theorem seatEvictIf_version (s : ConsolidatedState) (c : Color) (pid : String) (now : Nat) :
    (seatEvictIf s c pid now).version = s.version := by
  unfold seatEvictIf
  split
  · split
    · rw [assign_version, version_clearSeat]
    · rfl
  · rfl

theorem leaveCore_version (s : ConsolidatedState) (pid : String) (now : Nat) :
    (leaveQueueCore s pid now).version = s.version := by
  unfold leaveQueueCore
  dsimp only
  rw [seatEvictIf_version, seatEvictIf_version, version_setQueue, version_setQueue]

theorem seatKickIf_version (s : ConsolidatedState) (c : Color) (name : String) (now : Nat) :
    (seatKickIf s c name now).2.version = s.version := by
  unfold seatKickIf
  split
  · split
    · dsimp only
      rw [assign_version, version_clearSeat]
    · rfl
  · rfl

theorem kickCore_version (s : ConsolidatedState) (name : String) (now : Nat) :
    (kickPlayerByNameCore s name now).2.version = s.version := by
  unfold kickPlayerByNameCore
  dsimp only
  rw [seatKickIf_version, seatKickIf_version, version_setQueue, version_setQueue]

theorem confirmCore_version {s : ConsolidatedState} {pid : String} {now : Nat}
    {s' : ConsolidatedState} (h : confirmReadyCore s pid now = .ok s') :
    s'.version = s.version := by
  unfold confirmReadyCore at h
  dsimp only at h
  split at h
  · exact absurd h (by simp)
  · split at h
    · exact absurd h (by simp)
    · split at h
      · exact absurd h (by simp)
      · split at h
        · exact absurd h (by simp)
        · split at h
          · exact absurd h (by simp)
          · cases h
            rw [version_setTurns]

theorem moveCore_version {eng : ChessEngine} {s : ConsolidatedState} {pid : String}
    {mv : MoveReq} {now : Nat} {s' : ConsolidatedState}
    (h : makeMoveCore eng s pid mv now = .ok s') : s'.version = s.version := by
  unfold makeMoveCore at h
  dsimp only at h
  split at h
  · exact absurd h (by simp)
  · split at h
    · exact absurd h (by simp)
    · split at h
      · exact absurd h (by simp)
      · split at h
        · exact absurd h (by simp)
        · split at h
          · exact absurd h (by simp)
          · split at h
            · exact absurd h (by simp)
            · split at h
              · exact absurd h (by simp)
              · cases h
                rw [init_version, assign_version, version_clearSeat, version_setQueue]

/-- A successful pass through updateState writes the modified state with
    the version incremented by exactly one relative to the state read,
    provided the transition itself does not touch the version. -/
theorem runUpdate_version {s : ConsolidatedState} {now : Nat}
    {modifier : ConsolidatedState → Except String ConsolidatedState}
    {s' : ConsolidatedState}
    (h : modifier (checkAndExpireTurnsInline s now).2 = .ok s')
    (hver : s'.version = (checkAndExpireTurnsInline s now).2.version) :
    (runUpdate s now modifier).version = s.version + 1 := by
  unfold runUpdate
  dsimp only
  rw [h]
  dsimp only
  rw [hver, expire_version]

/-- C6 counterexample: from the default state playerA joins white, a
    successful mutation leaving the record at version 1; the successful
    clearAllQueues mutation then overwrites the record with the default
    state at version 0, so its version is not 1 + 1 and has in fact
    decreased. -/
theorem claim_C6_counterexample :
    Reachable tableEngine (applyOp tableEngine Op.clearAll 1 stJoinAw) ∧
    stJoinAw.version = 1 ∧
    (applyOp tableEngine Op.clearAll 1 stJoinAw).version = 0 := by
  refine ⟨⟨[(.join playerA .w, 0), (.clearAll, 1)], ?_⟩, rfl, rfl⟩
  show applyOp tableEngine Op.clearAll 1 stJoinAw =
    applyOp tableEngine Op.clearAll 1 (applyOp tableEngine (.join playerA .w) 0 createDefaultState)
  rw [step_join_Aw]

/-- C6 amended: every successful mutation that runs through updateState,
    that is join, leave, confirmReady, makeMove, resetGame and
    kickPlayerByName, takes a state with version v to version exactly
    v + 1; clearAllQueues is the exception: it overwrites the record with
    the default state, resetting the version to 0, which both violates
    the plus-one law and lets the version decrease. -/
theorem claim_C6_amended :
    (∀ eng p c now s s',
      joinQueueCore (checkAndExpireTurnsInline s now).2 p c now = .ok s' →
      (applyOp eng (.join p c) now s).version = s.version + 1) ∧
    (∀ eng pid now s, (applyOp eng (.leave pid) now s).version = s.version + 1) ∧
    (∀ eng pid now s s',
      confirmReadyCore (checkAndExpireTurnsInline s now).2 pid now = .ok s' →
      (applyOp eng (.confirm pid) now s).version = s.version + 1) ∧
    (∀ eng pid mv now s s',
      makeMoveCore eng (checkAndExpireTurnsInline s now).2 pid mv now = .ok s' →
      (applyOp eng (.move pid mv) now s).version = s.version + 1) ∧
    (∀ eng now s, (applyOp eng Op.reset now s).version = s.version + 1) ∧
    (∀ eng name now s, (applyOp eng (.kick name) now s).version = s.version + 1) ∧
    (∀ eng now s, applyOp eng Op.clearAll now s = createDefaultState ∧
      (applyOp eng Op.clearAll now s).version = 0) := by
  refine ⟨?_, ?_, ?_, ?_, ?_, ?_, ?_⟩
  · intro eng p c now s s' h
    show (runUpdate s now (fun st => joinQueueCore st p c now)).version = s.version + 1
    exact runUpdate_version h (joinCore_version h)
  · intro eng pid now s
    show (runUpdate s now (fun st => .ok (leaveQueueCore st pid now))).version = s.version + 1
    exact runUpdate_version rfl (leaveCore_version _ _ _)
  · intro eng pid now s s' h
    show (runUpdate s now (fun st => confirmReadyCore st pid now)).version = s.version + 1
    exact runUpdate_version h (confirmCore_version h)
  · intro eng pid mv now s s' h
    show (runUpdate s now (fun st => makeMoveCore eng st pid mv now)).version = s.version + 1
    exact runUpdate_version h (moveCore_version h)
  · intro eng now s
    show (runUpdate s now (fun st => .ok (resetGameCore st))).version = s.version + 1
    exact runUpdate_version rfl rfl
  · intro eng name now s
    show (runUpdate s now
      (fun st => .ok (kickPlayerByNameCore st name now).2)).version = s.version + 1
    exact runUpdate_version rfl (kickCore_version _ _ _)
  · intro eng now s
    exact ⟨rfl, rfl⟩

theorem claim_C6_amended_witness :
    (applyOp tableEngine (.join playerA .w) 0 createDefaultState).version =
      createDefaultState.version + 1 ∧
    (applyOp tableEngine (.leave playerA.id) 1 stJoinAw).version = stJoinAw.version + 1 ∧
    (applyOp tableEngine (.confirm playerA.id) 1 stJoinAw).version = stJoinAw.version + 1 ∧
    (applyOp tableEngine (.move playerA.id e2e4) 2 stConfirmA).version =
      stConfirmA.version + 1 ∧
    (applyOp tableEngine Op.reset 4 stJoinBb).version = stJoinBb.version + 1 ∧
    (applyOp tableEngine (.kick "Zed") 0 createDefaultState).version =
      createDefaultState.version + 1 ∧
    applyOp tableEngine Op.clearAll 1 stJoinAw = createDefaultState :=
  ⟨claim_C6_amended.1 tableEngine playerA .w 0 createDefaultState
      { stJoinAw with version := 0 } rfl,
   claim_C6_amended.2.1 tableEngine playerA.id 1 stJoinAw,
   claim_C6_amended.2.2.1 tableEngine playerA.id 1 stJoinAw
      { stConfirmA with version := 1 } rfl,
   claim_C6_amended.2.2.2.1 tableEngine playerA.id e2e4 2 stConfirmA
      { stMoveA with version := 2 } rfl,
   claim_C6_amended.2.2.2.2.1 tableEngine 4 stJoinBb,
   claim_C6_amended.2.2.2.2.2.1 tableEngine "Zed" 0 createDefaultState,
   (claim_C6_amended.2.2.2.2.2.2 tableEngine 1 stJoinAw).1⟩

/- ------------------------------------------------------------------ -/
/- Frame of resetGame: claim C8.                                      -/
/- ------------------------------------------------------------------ -/

/-- C8: a reset replaces the game component, putting the FEN back to the
    starting position, clearing lastMove and emptying the move history,
    and touches nothing else: the queues, the seats and the turn states
    of the read state are carried over unchanged.  The resetGame modifier
    passed to updateState preserves even the version, whose increment is
    applied by updateState itself; the InMemoryStore method increments
    the version directly; and the persisted effect of the reset operation
    is exactly the frame-preserving transition applied to the lazily
    expired read state, with the version bumped by one. -/
theorem claim_C8 :
    (∀ s : ConsolidatedState,
      (resetGameCore s).game = { fen := START_FEN, lastMove := none, moveHistory := [] } ∧
      (resetGameCore s).queues = s.queues ∧
      (resetGameCore s).current = s.current ∧
      (resetGameCore s).turns = s.turns ∧
      (resetGameCore s).version = s.version) ∧
    (∀ s : ConsolidatedState,
      (resetGameInMemory s).game = { fen := START_FEN, lastMove := none, moveHistory := [] } ∧
      (resetGameInMemory s).queues = s.queues ∧
      (resetGameInMemory s).current = s.current ∧
      (resetGameInMemory s).turns = s.turns ∧
      (resetGameInMemory s).version = s.version + 1) ∧
    (∀ eng s now, applyOp eng Op.reset now s =
      { resetGameCore (checkAndExpireTurnsInline s now).2 with
        version := (resetGameCore (checkAndExpireTurnsInline s now).2).version + 1 }) := by
  refine ⟨?_, ?_, ?_⟩
  · intro s
    exact ⟨rfl, rfl, rfl, rfl, rfl⟩
  · intro s
    exact ⟨rfl, rfl, rfl, rfl, rfl⟩
  · intro eng s now
    rfl

/- ------------------------------------------------------------------ -/
/- Idempotence of leave: claim C7.                                    -/
/- ------------------------------------------------------------------ -/

/-- After any operation has run the lazy expiry, the color with the move
    either has a vacant seat or carries a live pending or confirmed
    clock; on such states a further expiry pass is a no-op. -/
def TurnHealthy (s : ConsolidatedState) (now : Nat) : Prop :=
  ∀ c, getTurnFromFen s.game.fen = c.str → s.currentOf c ≠ none →
    ∃ ts, s.turnsOf c = some ts ∧ ¬ now > ts.deadline

theorem Color.str_inj {c c' : Color} (h : c.str = c'.str) : c = c' := by
  cases c <;> cases c' <;> first | rfl | exact absurd h (by decide)

theorem turnHealthy_of_str {s : ConsolidatedState} {now : Nat} {c : Color}
    (hc : getTurnFromFen s.game.fen = c.str)
    (hgood : s.currentOf c ≠ none → ∃ ts, s.turnsOf c = some ts ∧ ¬ now > ts.deadline) :
    TurnHealthy s now := by
  intro c' hc' hcur
  cases Color.str_inj (hc.symm.trans hc')
  exact hgood hcur

theorem turnHealthy_of_badturn {s : ConsolidatedState} {now : Nat}
    (h1 : getTurnFromFen s.game.fen ≠ "w") (h2 : getTurnFromFen s.game.fen ≠ "b") :
    TurnHealthy s now := by
  intro c hc
  cases c
  · exact absurd hc h1
  · exact absurd hc h2

theorem turnHealthy_congr {s s' : ConsolidatedState} {now : Nat}
    (hf : s'.game.fen = s.game.fen)
    (hc : ∀ c, s'.currentOf c = s.currentOf c)
    (ht : ∀ c, s'.turnsOf c = s.turnsOf c)
    (h : TurnHealthy s now) : TurnHealthy s' now := by
  intro c hcc hcur
  rw [hf] at hcc
  rw [hc c] at hcur
  rw [ht c]
  exact h c hcc hcur

theorem expire_noop_of_healthy {s : ConsolidatedState} {now : Nat} (h : TurnHealthy s now) :
    checkAndExpireTurnsInline s now = (false, s) := by
  by_cases hw : getTurnFromFen s.game.fen = "w"
  · by_cases hcur : s.current.white = none
    · exact expire_eq_of_vacant s now .w hw (by simpa using hcur)
    · obtain ⟨ts, hts, hd⟩ := h .w hw (by simpa using hcur)
      rw [expire_eq_of_turn s now .w hw (by simpa using hcur)]
      exact expireColor_of_live s .w now ts hts hd
  · by_cases hb : getTurnFromFen s.game.fen = "b"
    · by_cases hcur : s.current.black = none
      · exact expire_eq_of_vacant s now .b hb (by simpa using hcur)
      · obtain ⟨ts, hts, hd⟩ := h .b hb (by simpa using hcur)
        rw [expire_eq_of_turn s now .b hb (by simpa using hcur)]
        exact expireColor_of_live s .b now ts hts hd
    · exact expire_eq_of_badturn s now hw hb

/-- Clearing a seat and reassigning from the queue leaves a healthy
    state: the incoming player, if any, receives a fresh unexpired
    pending clock whenever the cleared color has the move. -/
theorem turnHealthy_assign_clear {s : ConsolidatedState} {now : Nat} (c : Color)
    (h : TurnHealthy s now) :
    TurnHealthy (assignNextPlayer (s.clearSeat c) c now) now := by
  intro c' hc' hcur
  have hfen : getTurnFromFen s.game.fen = c'.str := by
    rw [assign_game, game_clearSeat] at hc'
    exact hc'
  by_cases hcc : c' = c
  · subst hcc
    rw [assign_currentOf_self] at hcur
    have hne : (s.clearSeat c').queueOf c' ≠ [] := by
      intro hnil
      rw [hnil] at hcur
      exact hcur rfl
    rw [assign_turnsOf_self_cons now hne, game_clearSeat, if_pos hfen]
    exact ⟨_, rfl, by show ¬ now > now + CONFIRMATION_TIMEOUT_MS ; omega⟩
  · rw [assign_currentOf_other _ _ _ _ hcc, currentOf_clearSeat, if_neg hcc] at hcur
    rw [assign_turnsOf_other _ _ _ _ hcc, turnsOf_clearSeat, if_neg hcc]
    exact h c' hfen hcur

/-- The restriction of the previous lemma to the color with the move: no
    healthiness of the pre-state is needed, because the color examined by
    the expiry is exactly the one whose clock the reassignment renews. -/
theorem turnHealthy_assign_clear_turn {s : ConsolidatedState} {now : Nat} {c : Color}
    (hc : getTurnFromFen s.game.fen = c.str) :
    TurnHealthy (assignNextPlayer (s.clearSeat c) c now) now := by
  intro c' hc' hcur
  have hfen : getTurnFromFen s.game.fen = c'.str := by
    rw [assign_game, game_clearSeat] at hc'
    exact hc'
  cases Color.str_inj (hc.symm.trans hfen)
  rw [assign_currentOf_self] at hcur
  have hne : (s.clearSeat c).queueOf c ≠ [] := by
    intro hnil
    rw [hnil] at hcur
    exact hcur rfl
  rw [assign_turnsOf_self_cons now hne, game_clearSeat, if_pos hc]
  exact ⟨_, rfl, by show ¬ now > now + CONFIRMATION_TIMEOUT_MS ; omega⟩

theorem expireColor_healthy_turn {s : ConsolidatedState} {c : Color} {now : Nat}
    (hc : getTurnFromFen s.game.fen = c.str) :
    TurnHealthy (expireColor s c now).2 now := by
  cases hts : s.turnsOf c with
  | none =>
    rw [expireColor_of_none s c now hts]
    refine turnHealthy_of_str (c := c) ?_ (fun _ => ?_)
    · rw [game_setTurns]
      exact hc
    · exact ⟨_, turnsOf_setTurns_self s c _,
        by show ¬ now > now + CONFIRMATION_TIMEOUT_MS ; omega⟩
  | some ts =>
    by_cases hd : now > ts.deadline
    · rw [expireColor_of_dead s c now ts hts hd]
      exact turnHealthy_assign_clear_turn hc
    · rw [expireColor_of_live s c now ts hts hd]
      exact turnHealthy_of_str (c := c) hc (fun _ => ⟨ts, hts, hd⟩)

/-- The state left behind by the lazy expiry is always healthy at the
    very instant of the check. -/
theorem expire_healthy (s : ConsolidatedState) (now : Nat) :
    TurnHealthy (checkAndExpireTurnsInline s now).2 now := by
  by_cases hw : getTurnFromFen s.game.fen = "w"
  · by_cases hcur : s.current.white = none
    · rw [expire_eq_of_vacant s now .w hw (by simpa using hcur)]
      exact turnHealthy_of_str (c := .w) hw (fun hcur' => absurd hcur hcur')
    · rw [expire_eq_of_turn s now .w hw (by simpa using hcur)]
      exact expireColor_healthy_turn hw
  · by_cases hb : getTurnFromFen s.game.fen = "b"
    · by_cases hcur : s.current.black = none
      · rw [expire_eq_of_vacant s now .b hb (by simpa using hcur)]
        exact turnHealthy_of_str (c := .b) hb (fun hcur' => absurd hcur hcur')
      · rw [expire_eq_of_turn s now .b hb (by simpa using hcur)]
        exact expireColor_healthy_turn hb
    · rw [expire_eq_of_badturn s now hw hb]
      exact turnHealthy_of_badturn hw hb

theorem seatEvictIf_healthy {s : ConsolidatedState} {now : Nat} (c : Color) (pid : String)
    (h : TurnHealthy s now) : TurnHealthy (seatEvictIf s c pid now) now := by
  unfold seatEvictIf
  split
  · split
    · exact turnHealthy_assign_clear c h
    · exact h
  · exact h

theorem leaveCore_healthy {s : ConsolidatedState} {now : Nat} (pid : String)
    (h : TurnHealthy s now) : TurnHealthy (leaveQueueCore s pid now) now := by
  unfold leaveQueueCore
  dsimp only
  refine seatEvictIf_healthy _ _ (seatEvictIf_healthy _ _ ?_)
  refine turnHealthy_congr ?_ ?_ ?_ h <;> simp

theorem setQueue_self (s : ConsolidatedState) (c : Color) :
    s.setQueue c (s.queueOf c) = s := by
  cases c <;> rfl

theorem seatEvictIf_noop {s : ConsolidatedState} {c : Color} {pid : String} {now : Nat}
    (h : ∀ p, s.currentOf c = some p → p.id ≠ pid) :
    seatEvictIf s c pid now = s := by
  unfold seatEvictIf
  split
  · rename_i cp hcp
    rw [if_neg (h cp hcp)]
  · rfl

/-- When the id occurs nowhere, leaveQueue leaves the state untouched:
    the filters keep every queue element and neither seat is evicted. -/
theorem leaveCore_noop {s : ConsolidatedState} {pid : String} {now : Nat}
    (hqw : ∀ p ∈ s.queueOf .w, p.id ≠ pid) (hqb : ∀ p ∈ s.queueOf .b, p.id ≠ pid)
    (hcw : ∀ p, s.currentOf .w = some p → p.id ≠ pid)
    (hcb : ∀ p, s.currentOf .b = some p → p.id ≠ pid) :
    leaveQueueCore s pid now = s := by
  unfold leaveQueueCore
  dsimp only
  have e1 : (s.queueOf .w).filter (fun p => p.id ≠ pid) = s.queueOf .w := by
    rw [List.filter_eq_self]
    intro a ha
    simpa using hqw a ha
  rw [e1, setQueue_self]
  have e2 : (s.queueOf .b).filter (fun p => p.id ≠ pid) = s.queueOf .b := by
    rw [List.filter_eq_self]
    intro a ha
    simpa using hqb a ha
  rw [e2, setQueue_self]
  rw [seatEvictIf_noop hcw, seatEvictIf_noop hcb]

theorem assign_clear_queue_subset {s : ConsolidatedState} {c : Color} {now : Nat}
    (c'' : Color) (p : Player)
    (hp : p ∈ (assignNextPlayer (s.clearSeat c) c now).queueOf c'') :
    p ∈ s.queueOf c'' := by
  by_cases hcc : c'' = c
  · subst hcc
    rw [assign_queueOf_self, queueOf_clearSeat] at hp
    exact List.mem_of_mem_tail hp
  · rw [assign_queueOf_other _ _ _ _ hcc, queueOf_clearSeat] at hp
    exact hp

theorem assign_clear_current_mem {s : ConsolidatedState} {c : Color} {now : Nat}
    (p : Player) (hp : (assignNextPlayer (s.clearSeat c) c now).currentOf c = some p) :
    p ∈ s.queueOf c := by
  rw [assign_currentOf_self, queueOf_clearSeat] at hp
  cases hq : s.queueOf c with
  | nil =>
    rw [hq] at hp
    exact absurd hp (by simp)
  | cons hd tl =>
    rw [hq] at hp
    have he : hd = p := by simpa using hp
    rw [← he]
    exact List.mem_cons_self hd tl

/-- Evicting a seat from a state whose queues avoid the id keeps the
    queues clean, installs a seat occupant whose id differs from the id,
    and leaves the other seat untouched. -/
theorem queuesPidFree_evict {s : ConsolidatedState} {pid : String} (c : Color) (now : Nat)
    (h : ∀ c'', ∀ p ∈ s.queueOf c'', p.id ≠ pid) :
    (∀ c'', ∀ p ∈ (seatEvictIf s c pid now).queueOf c'', p.id ≠ pid) ∧
    (∀ p, (seatEvictIf s c pid now).currentOf c = some p → p.id ≠ pid) ∧
    (∀ c', c' ≠ c → (seatEvictIf s c pid now).currentOf c' = s.currentOf c') := by
  unfold seatEvictIf
  split
  · rename_i cp hcp
    split
    · refine ⟨?_, ?_, ?_⟩
      · intro c'' p hp
        exact h c'' p (assign_clear_queue_subset c'' p hp)
      · intro p hp
        exact h c p (assign_clear_current_mem p hp)
      · intro c' hcc
        rw [assign_currentOf_other _ _ _ _ hcc, currentOf_clearSeat, if_neg hcc]
    · rename_i hid
      refine ⟨h, ?_, fun c' hcc => rfl⟩
      intro p hp
      rw [hcp] at hp
      cases hp
      exact hid
  · rename_i hcp
    refine ⟨h, ?_, fun c' hcc => rfl⟩
    intro p hp
    rw [hcp] at hp
    exact absurd hp (by simp)

theorem evict_evict_pidFree {s2 : ConsolidatedState} {pid : String} {now : Nat}
    (hq : ∀ c'', ∀ p ∈ s2.queueOf c'', p.id ≠ pid) :
    (∀ c'', ∀ p ∈ (seatEvictIf (seatEvictIf s2 .w pid now) .b pid now).queueOf c'',
      p.id ≠ pid) ∧
    (∀ c'', ∀ p, (seatEvictIf (seatEvictIf s2 .w pid now) .b pid now).currentOf c'' = some p →
      p.id ≠ pid) := by
  obtain ⟨hq1, hcw, hoth1⟩ := queuesPidFree_evict .w now hq
  obtain ⟨hq2, hcb, hoth2⟩ := queuesPidFree_evict .b now hq1
  refine ⟨hq2, ?_⟩
  intro c'' p hp
  cases c''
  · rw [hoth2 .w (by decide)] at hp
    exact hcw p hp
  · exact hcb p hp

/-- After a leave, the departed id occurs in no queue and on no seat. -/
theorem leaveCore_pidFree (s : ConsolidatedState) (pid : String) (now : Nat) :
    (∀ c'', ∀ p ∈ (leaveQueueCore s pid now).queueOf c'', p.id ≠ pid) ∧
    (∀ c'', ∀ p, (leaveQueueCore s pid now).currentOf c'' = some p → p.id ≠ pid) := by
  unfold leaveQueueCore
  dsimp only
  apply evict_evict_pidFree
  intro c'' p hp
  cases c''
  · rw [queueOf_setQueue, if_neg (by decide : ¬ Color.w = Color.b),
      queueOf_setQueue_self, List.mem_filter] at hp
    simpa using hp.2
  · rw [queueOf_setQueue, if_pos rfl, List.mem_filter] at hp
    simpa using hp.2

def stLeave1 : ConsolidatedState := { createDefaultState with version := 1 }

def stLeave2 : ConsolidatedState := { createDefaultState with version := 2 }

theorem step_leave_default :
    applyOp tableEngine (.leave playerA.id) 0 createDefaultState = stLeave1 := by decide

theorem step_leave_again :
    applyOp tableEngine (.leave playerA.id) 0 stLeave1 = stLeave2 := by decide

/-- C7 counterexample: updateState increments the version on every
    successful write and leaveQueue always succeeds, so even on the
    default state, where leaving changes no queue and no seat, a second
    leave produces a different state than the first: the two writes leave
    the version at 2 rather than 1. -/
theorem claim_C7_counterexample :
    applyOp tableEngine (.leave playerA.id) 0
        (applyOp tableEngine (.leave playerA.id) 0 createDefaultState) ≠
      applyOp tableEngine (.leave playerA.id) 0 createDefaultState ∧
    (applyOp tableEngine (.leave playerA.id) 0
        (applyOp tableEngine (.leave playerA.id) 0 createDefaultState)).version = 2 ∧
    (applyOp tableEngine (.leave playerA.id) 0 createDefaultState).version = 1 := by
  rw [step_leave_default, step_leave_again]
  refine ⟨?_, rfl, rfl⟩
  decide

/-- C7 amended: leave is idempotent up to the version counter.  Applying
    leaveQueue with the same id twice at the same instant produces
    exactly the state of the single application with the version bumped
    once more: the second call filters nothing, evicts nobody and fires
    no expiry, because the first call removed the id everywhere and left
    a healthy turn state; only the unconditional version increment of the
    successful write remains. -/
theorem claim_C7_amended (eng : ChessEngine) (s : ConsolidatedState) (pid : String)
    (now : Nat) :
    applyOp eng (.leave pid) now (applyOp eng (.leave pid) now s) =
      { applyOp eng (.leave pid) now s with
        version := (applyOp eng (.leave pid) now s).version + 1 } := by
  have key : ∀ L : ConsolidatedState, TurnHealthy L now →
      (∀ c'', ∀ p ∈ L.queueOf c'', p.id ≠ pid) →
      (∀ c'', ∀ p, L.currentOf c'' = some p → p.id ≠ pid) →
      applyOp eng (.leave pid) now { L with version := L.version + 1 } =
        { { L with version := L.version + 1 } with
          version := { L with version := L.version + 1 }.version + 1 } := by
    intro L hH hq hc
    have hHv : TurnHealthy { L with version := L.version + 1 } now := by
      refine turnHealthy_congr ?_ ?_ ?_ hH
      · rw [game_withVersion]
      · intro c
        exact currentOf_withVersion L _ c
      · intro c
        exact turnsOf_withVersion L _ c
    have hE : checkAndExpireTurnsInline { L with version := L.version + 1 } now =
        (false, { L with version := L.version + 1 }) := expire_noop_of_healthy hHv
    have hnoop : leaveQueueCore { L with version := L.version + 1 } pid now =
        { L with version := L.version + 1 } := by
      apply leaveCore_noop
      · intro p hp
        exact hq .w p (by rw [queueOf_withVersion] at hp; exact hp)
      · intro p hp
        exact hq .b p (by rw [queueOf_withVersion] at hp; exact hp)
      · intro p hp
        exact hc .w p (by rw [currentOf_withVersion] at hp; exact hp)
      · intro p hp
        exact hc .b p (by rw [currentOf_withVersion] at hp; exact hp)
    show runUpdate { L with version := L.version + 1 } now
        (fun st => .ok (leaveQueueCore st pid now)) = _
    unfold runUpdate
    dsimp only
    rw [hE]
    dsimp only
    rw [hnoop]
  rw [show applyOp eng (.leave pid) now s =
      { leaveQueueCore (checkAndExpireTurnsInline s now).2 pid now with
        version := (leaveQueueCore (checkAndExpireTurnsInline s now).2 pid now).version + 1 }
    from rfl]
  exact key (leaveQueueCore (checkAndExpireTurnsInline s now).2 pid now)
    (leaveCore_healthy pid (expire_healthy s now))
    (leaveCore_pidFree (checkAndExpireTurnsInline s now).2 pid now).1
    (leaveCore_pidFree (checkAndExpireTurnsInline s now).2 pid now).2

/- ------------------------------------------------------------------ -/
/- The two timeout windows: claim C10.                                -/
/- ------------------------------------------------------------------ -/

/-- C10: the two turn windows have the fixed lengths 10000 ms and
    30000 ms.  Every pending_confirmation turn state the store creates
    carries deadline = now + 10000: the one attached by assignNextPlayer
    when the assigned color has the move, the one added lazily by
    initializeTurnStateIfNeeded for an already seated player, the one
    the expiry check backfills when the seated mover has no turn state,
    and the one given to the replacement player seated after an expired
    clock is evicted.  Every successful confirmReady sets the turn state
    to confirmed with deadline = now + 30000. -/
theorem claim_C10 :
    CONFIRMATION_TIMEOUT_MS = 10000 ∧
    MOVE_TIMEOUT_MS = 30000 ∧
    (∀ s c now, s.queueOf c ≠ [] → getTurnFromFen s.game.fen = c.str →
      (assignNextPlayer s c now).turnsOf c =
        some { status := .pending_confirmation, deadline := now + 10000 }) ∧
    (∀ s now c p, getTurnFromFen s.game.fen = c.str → s.currentOf c = some p →
      s.turnsOf c = none →
      (initTurnStateIfNeeded s now).turnsOf c =
        some { status := .pending_confirmation, deadline := now + 10000 }) ∧
    (∀ s c now, s.turnsOf c = none →
      (expireColor s c now).2.turnsOf c =
        some { status := .pending_confirmation, deadline := now + 10000 }) ∧
    (∀ s c now ts, s.turnsOf c = some ts → now > ts.deadline → s.queueOf c ≠ [] →
      getTurnFromFen s.game.fen = c.str →
      (expireColor s c now).2.turnsOf c =
        some { status := .pending_confirmation, deadline := now + 10000 }) ∧
    (∀ s pid now s', confirmReadyCore s pid now = .ok s' →
      s'.turnsOf (ternaryColor s.game.fen) =
        some { status := .confirmed, deadline := now + 30000 }) := by
  refine ⟨rfl, rfl, ?_, ?_, ?_, ?_, ?_⟩
  · intro s c now hne hc
    rw [assign_turnsOf_self_cons now hne, if_pos hc]
    rfl
  · intro s now c p hc hcur hts
    rw [init_of_seated s now c p hc hcur hts, turnsOf_setTurns_self]
    rfl
  · intro s c now h
    rw [expireColor_of_none s c now h]
    exact turnsOf_setTurns_self s c _
  · intro s c now ts h hd hne hc
    rw [expireColor_of_dead s c now ts h hd]
    dsimp only
    rw [assign_turnsOf_self_cons now (by rw [queueOf_clearSeat]; exact hne),
      game_clearSeat, if_pos hc]
    rfl
  · intro s pid now s' h
    unfold confirmReadyCore at h
    dsimp only at h
    split at h
    · exact absurd h (by simp)
    · split at h
      · exact absurd h (by simp)
      · split at h
        · exact absurd h (by simp)
        · split at h
          · exact absurd h (by simp)
          · split at h
            · exact absurd h (by simp)
            · cases h
              exact turnsOf_setTurns_self s _ _

theorem claim_C10_witness :
    (assignNextPlayer stC4 .w 2).turnsOf .w =
      some { status := .pending_confirmation, deadline := 2 + 10000 } ∧
    (initTurnStateIfNeeded cexC2 5).turnsOf .w =
      some { status := .pending_confirmation, deadline := 5 + 10000 } ∧
    (expireColor stMoveA .w 7).2.turnsOf .w =
      some { status := .pending_confirmation, deadline := 7 + 10000 } ∧
    (expireColor stC4 .w 9).2.turnsOf .w =
      some { status := .pending_confirmation, deadline := 9 + 10000 } ∧
    (stJoinAw.setTurns .w (some { status := .confirmed, deadline := 3 + 30000 })).turnsOf
      (ternaryColor stJoinAw.game.fen) =
      some { status := .confirmed, deadline := 3 + 30000 } :=
  ⟨claim_C10.2.2.1 stC4 .w 2 (by decide) (by decide),
   claim_C10.2.2.2.1 cexC2 5 .w playerA (by decide) rfl rfl,
   claim_C10.2.2.2.2.1 stMoveA .w 7 rfl,
   claim_C10.2.2.2.2.2.1 stC4 .w 9 { status := .pending_confirmation, deadline := 5 }
     rfl (by decide) (by decide) (by decide),
   claim_C10.2.2.2.2.2.2 stJoinAw playerA.id 3
     (stJoinAw.setTurns .w (some { status := .confirmed, deadline := 3 + 30000 })) rfl⟩

/- ------------------------------------------------------------------ -/
/- Anonymization of player ids: claim C9.                             -/
/- ------------------------------------------------------------------ -/

/-- The whitespace stripped by the trim of validation.ts.  JS trims the
    full Unicode whitespace class; the ASCII members below suffice here,
    because a validated player id contains no whitespace at all. -/
def isTrimWS (c : Char) : Bool := c = ' ' ∨ c = '\t' ∨ c = '\n' ∨ c = '\r'

def trimChars (l : List Char) : List Char :=
  ((l.dropWhile isTrimWS).reverse.dropWhile isTrimWS).reverse

def trimStr (s : String) : String := String.mk (trimChars s.data)

def isLowerAlnum (c : Char) : Bool := ('a' ≤ c ∧ c ≤ 'z') ∨ ('0' ≤ c ∧ c ≤ '9')

def isHexLower (c : Char) : Bool := ('a' ≤ c ∧ c ≤ 'f') ∨ ('0' ≤ c ∧ c ≤ '9')

/-- The tail d+_[a-z0-9]+ of the legacy id shape: one or more digits, an
    underscore, one or more lowercase alphanumerics, nothing after. -/
def legacyTail (l : List Char) : Bool :=
  let ds := l.takeWhile Char.isDigit
  match l.drop ds.length with
  | '_' :: tl => ds ≠ [] && tl ≠ [] && tl.all isLowerAlnum
  | _ => false

/-- The legacy id shape of validation.ts line 48: the literal player_,
    digits, an underscore, lowercase alphanumerics, anchored both ends. -/
def legacyShape (s : String) : Bool :=
  match s.data with
  | 'p' :: 'l' :: 'a' :: 'y' :: 'e' :: 'r' :: '_' :: rest => legacyTail rest
  | _ => false

/-- The secure id shape of validation.ts line 49: the literal player_
    followed by exactly 32 lowercase hex digits. -/
def secureShape (s : String) : Bool :=
  match s.data with
  | 'p' :: 'l' :: 'a' :: 'y' :: 'e' :: 'r' :: '_' :: rest =>
    rest.length = 32 && rest.all isHexLower
  | _ => false

/-- validatePlayerId, validation.ts lines 37-53, on string input: trim,
    reject a length outside 15..100, then require the legacy or the
    secure shape; the validated (trimmed) id is returned. -/
def validatePlayerId (id : String) : Option String :=
  let trimmed := trimStr id
  if trimmed.length < 15 ∨ trimmed.length > 100 then none
  else if ¬(legacyShape trimmed || secureShape trimmed) then none
  else some trimmed

/-- toPublicPlayerId, route.ts lines 256-259, parameterized by the digest
    base64url of sha256 supplied by the Node crypto library: the token is
    the string anon_ followed by the first 16 characters of the digest of
    the id (the digest is ASCII, so the character count of slice matches). -/
def toPublicPlayerId (digest : String → String) (playerId : String) : String :=
  "anon_" ++ String.mk ((digest playerId).data.take 16)

/-- toPublicPlayer, route.ts lines 266-269: the player goes through
    untouched exactly when the viewer id is present (non-null and, the
    test being JS truthiness, non-empty) and equals the player id;
    otherwise the id is replaced by the anonymous token. -/
def toPublicPlayer (digest : String → String) (player : Player)
    (viewerPlayerId : Option String) : Player :=
  match viewerPlayerId with
  | some v =>
    if v ≠ "" ∧ player.id = v then player
    else { player with id := toPublicPlayerId digest player.id }
  | none => { player with id := toPublicPlayerId digest player.id }

theorem validatePlayerId_spec {id : String} (h : validatePlayerId id = some id) :
    15 ≤ id.length ∧ (legacyShape id || secureShape id) = true := by
  unfold validatePlayerId at h
  dsimp only at h
  split at h
  · exact absurd h (by simp)
  · rename_i hlen
    split at h
    · exact absurd h (by simp)
    · rename_i hpat
      have htr : trimStr id = id := Option.some.inj h
      rw [htr] at hlen hpat
      constructor
      · omega
      · exact not_not.mp hpat

theorem validated_ne_empty {id : String} (h : validatePlayerId id = some id) : id ≠ "" := by
  intro he
  have hlen := (validatePlayerId_spec h).1
  rw [he] at hlen
  exact absurd hlen (by decide)

/-- Both accepted id shapes begin with the seven characters player_. -/
theorem shape_starts_player {s : String}
    (h : (legacyShape s || secureShape s) = true) :
    ∃ rest, s.data = 'p' :: 'l' :: 'a' :: 'y' :: 'e' :: 'r' :: '_' :: rest := by
  rcases (by simpa using h : legacyShape s = true ∨ secureShape s = true) with h1 | h1
  · unfold legacyShape at h1
    split at h1
    · rename_i rest heq
      exact ⟨rest, heq⟩
    · exact absurd h1 (by simp)
  · unfold secureShape at h1
    split at h1
    · rename_i rest heq
      exact ⟨rest, heq⟩
    · exact absurd h1 (by simp)

/-- A validated id never collides with an anonymous token: the id starts
    with the character p, the token with the character a. -/
theorem token_ne_validated {digest : String → String} {id : String}
    (h : validatePlayerId id = some id) : toPublicPlayerId digest id ≠ id := by
  intro heq
  obtain ⟨rest, hid⟩ := shape_starts_player (validatePlayerId_spec h).2
  have htok : (toPublicPlayerId digest id).data =
      'a' :: 'n' :: 'o' :: 'n' :: '_' :: (digest id).data.take 16 := rfl
  rw [heq, hid] at htok
  injection htok with h1 h2
  exact absurd h1 (by decide)

/-- C9: the anonymization is pure and deterministic.  A validated id
    viewing itself passes through unchanged; for every viewer who is not
    the subject (including the anonymous viewer) the published id is the
    token anon_ plus the truncated digest of the id alone, so two players
    with the same id receive the same token under every pair of
    non-subject viewers and across calls; and the token of a validated id
    is always distinct from the raw id. -/
theorem claim_C9 :
    (∀ digest p v, validatePlayerId p.id = some p.id → v = some p.id →
      toPublicPlayer digest p v = p) ∧
    (∀ digest p v, (∀ w, v = some w → w ≠ p.id) →
      (toPublicPlayer digest p v).id = toPublicPlayerId digest p.id) ∧
    (∀ digest p1 p2 v1 v2, p1.id = p2.id →
      (∀ w, v1 = some w → w ≠ p1.id) → (∀ w, v2 = some w → w ≠ p2.id) →
      (toPublicPlayer digest p1 v1).id = (toPublicPlayer digest p2 v2).id) ∧
    (∀ digest id, validatePlayerId id = some id → toPublicPlayerId digest id ≠ id) := by
  have hanon : ∀ digest p v, (∀ w, v = some w → w ≠ p.id) →
      (toPublicPlayer digest p v).id = toPublicPlayerId digest p.id := by
    intro digest p v hv
    cases v with
    | none => rfl
    | some w =>
      show (if w ≠ "" ∧ p.id = w then p
        else { p with id := toPublicPlayerId digest p.id }).id =
          toPublicPlayerId digest p.id
      rw [if_neg (fun hcon => hv w rfl hcon.2.symm)]
  refine ⟨?_, hanon, ?_, ?_⟩
  · intro digest p v hval hv
    subst hv
    show (if p.id ≠ "" ∧ p.id = p.id then p
      else { p with id := toPublicPlayerId digest p.id }) = p
    rw [if_pos ⟨validated_ne_empty hval, rfl⟩]
  · intro digest p1 p2 v1 v2 hid h1 h2
    rw [hanon digest p1 v1 h1, hanon digest p2 v2 h2, hid]
  · exact fun digest id h => token_ne_validated h

def playerV : Player := { id := "player_12345678_abc", name := "Vic", joinedAt := 0 }

theorem claim_C9_witness :
    toPublicPlayer (fun s => s) playerV (some playerV.id) = playerV ∧
    (toPublicPlayer (fun s => s) playerV none).id =
      toPublicPlayerId (fun s => s) playerV.id ∧
    (toPublicPlayer (fun s => s) playerV none).id =
      (toPublicPlayer (fun s => s) { playerV with name := "Wes" } (some playerA.id)).id ∧
    toPublicPlayerId (fun s => s) playerV.id ≠ playerV.id :=
  ⟨claim_C9.1 (fun s => s) playerV (some playerV.id) (by decide) rfl,
   claim_C9.2.1 (fun s => s) playerV none (fun w hw => nomatch hw),
   claim_C9.2.2.1 (fun s => s) playerV { playerV with name := "Wes" } none
     (some playerA.id) rfl (fun w hw => nomatch hw)
     (fun w hw => by
       cases hw
       exact (by decide : playerA.id ≠ playerV.id)),
   claim_C9.2.2.2 (fun s => s) playerV.id (by decide)⟩

end ChessXChess
